import Mathlib

/-!
# Verification of the ai-daily content-resolution and normalization pipeline

Shallow embedding of the repository's core pipeline:

* `src/src/rss_fetcher.py` — date extraction, date matching, entry content
  normalization (`RSSFetcher`);
* `src/plugins/ai-daily/skills/ai-daily/scripts/fetch_news.py` — the script
  variant of the same operations (prefixed `fn` here);
* `src/src/claude_analyzer.py` — prompt building, tolerant response parsing
  (`_parse_result`), empty/fallback results (`ClaudeAnalyzer`);
* `src/src/html_generator.py` — the rolling index update (`update_index`).

Python strings are modelled as Lean `String`/`List Char` (Python indexes and
slices by code point, as Lean does).  Python dicts produced by `json.loads`
are association lists with in-place update (`insertKV`), which reproduces
CPython's insertion-order semantics.  `json.loads` itself is modelled by an
executable recursive-descent parser (`jsonLoads`) over a `Json` value type;
JSON numbers are represented exactly as `mantissa × 10^exponent` pairs
(CPython parses them to `int`/IEEE `float`; no claim depends on numeric
values), `NaN`/`Infinity`/`-Infinity` get their own constructors, and the
only modelling restrictions
are: `\uXXXX` escapes in the surrogate range are rejected (Lean `Char`
cannot hold lone surrogates) and only ASCII whitespace is recognised by the
model of `str.strip`.  Error payloads of exceptions are modelled as strings;
their exact text is not load-bearing anywhere.

Configuration (`src/config.py` is not part of the sources) is passed
explicitly: the default theme and the category/theme tables are parameters.
-/

namespace AIDaily

/-! ## Python string helpers -/

/-- Whitespace recognised by the model of Python's `str.strip()`.
(The ASCII whitespace characters; exotic Unicode space code points are not
modelled — no input in the repository's pipeline contains them.) -/
def pyIsSpace (c : Char) : Bool :=
  c = ' ' ∨ c = '\t' ∨ c = '\n' ∨ c = '\r' ∨ c = '\x0b' ∨ c = '\x0c'

/-- `str.strip()` on a character list. -/
def pyStripChars (cs : List Char) : List Char :=
  ((cs.dropWhile pyIsSpace).reverse.dropWhile pyIsSpace).reverse

/-- `str.strip()`. -/
def pyStrip (s : String) : String :=
  String.mk (pyStripChars s.data)

/-- Prefix test (like `List.isPrefixOf`, but recursing on the pattern so
that it also evaluates when only a prefix of the scanned text is
concrete). -/
def isPrefixOfChars : List Char → List Char → Bool
  | [], _ => true
  | a :: as, bs =>
    match bs with
    | [] => false
    | b :: bs' => a == b && isPrefixOfChars as bs'

/-- Python `str.replace(pat, rep)`: leftmost, non-overlapping, all
occurrences.  On a match the scan resumes after the matched occurrence:
the head is consumed and `pat.length - 1` further characters are dropped,
which for nonempty `pat` (the only patterns the code uses) is exactly
`drop pat.length` of the whole list.  The structurally decreasing fuel
starts at the input length and never runs out, since every step consumes
at least the head character. -/
def replaceCharsAux (pat rep : List Char) : Nat → List Char → List Char
  | _, [] => []
  | 0, cs => cs
  | fuel + 1, c :: cs =>
    if isPrefixOfChars pat (c :: cs) then
      rep ++ replaceCharsAux pat rep fuel (cs.drop (pat.length - 1))
    else
      c :: replaceCharsAux pat rep fuel cs

def replaceChars (pat rep : List Char) (cs : List Char) : List Char :=
  replaceCharsAux pat rep cs.length cs

/-- Python `str.replace`. -/
def pyReplace (s pat rep : String) : String :=
  String.mk (replaceChars pat.data rep.data s.data)

/-- Python `needle in haystack` for strings (substring containment). -/
def strContainsSub (hay pat : String) : Bool :=
  (List.range (hay.data.length + 1)).any fun i => isPrefixOfChars pat.data (hay.data.drop i)

/-! ## JSON values (the result of `json.loads`) -/

/-- A decoded JSON value (a Python object produced by `json.loads`).
Objects carry their key/value pairs in insertion order, as CPython dicts do.
`num mantissa exp10` holds the exact value `mantissa × 10^exp10` of a JSON
numeral (unnormalised; no claim inspects numeric values). -/
inductive Json where
  | null : Json
  | bool (b : Bool) : Json
  | num (mantissa exp10 : Int) : Json
  | str (s : String) : Json
  | arr (elems : List Json) : Json
  | obj (fields : List (String × Json)) : Json
  | nan : Json
  | inf : Json
  | negInf : Json

/-- Lookup in a decoded object (`k in d` / `d[k]`). -/
def lookupJ : List (String × Json) → String → Option Json
  | [], _ => none
  | (k', v') :: rest, k => if k' = k then some v' else lookupJ rest k

/-- Python dict assignment `d[k] = v`: replaces in place if the key exists,
otherwise appends (insertion order). -/
def insertKV : List (String × Json) → String → Json → List (String × Json)
  | [], k, v => [(k, v)]
  | (k', v') :: rest, k, v =>
    if k' = k then (k', v) :: rest else (k', v') :: insertKV rest k v

/-! ## Model of `json.loads` -/

/-- JSON inter-token whitespace (the characters CPython's scanner skips). -/
def jsonWs (c : Char) : Bool :=
  c = ' ' ∨ c = '\t' ∨ c = '\n' ∨ c = '\r'

def skipWs : List Char → List Char
  | [] => []
  | c :: cs => if jsonWs c then skipWs cs else c :: cs

/-- Value of a hex digit. -/
def hexVal (c : Char) : Option Nat :=
  if '0' ≤ c ∧ c ≤ '9' then some (c.toNat - 48)
  else if 'a' ≤ c ∧ c ≤ 'f' then some (c.toNat - 87)
  else if 'A' ≤ c ∧ c ≤ 'F' then some (c.toNat - 55)
  else none

/-- Body of a JSON string literal, after the opening quote: returns the
decoded characters and the input after the closing quote.  Escapes follow
CPython's strict decoder; raw control characters are rejected.  `\uXXXX` in
the surrogate range is rejected (modelling restriction: Lean `Char` holds
only Unicode scalar values).  The structurally decreasing fuel is a
modelling artifact: every recursive call first consumes at least one input
character, so any fuel exceeding the input length behaves identically. -/
def parseStringBody : Nat → List Char → Option (List Char × List Char)
  | 0, _ => none
  | fuel + 1, cs =>
    match cs with
    | [] => none
    | c :: cs =>
      if c = '"' then some ([], cs)
      else if c = '\\' then
        match cs with
        | [] => none
        | e :: cs' =>
          if e = '"' then (parseStringBody fuel cs').map fun r => ('"' :: r.1, r.2)
          else if e = '\\' then (parseStringBody fuel cs').map fun r => ('\\' :: r.1, r.2)
          else if e = '/' then (parseStringBody fuel cs').map fun r => ('/' :: r.1, r.2)
          else if e = 'b' then (parseStringBody fuel cs').map fun r => ('\x08' :: r.1, r.2)
          else if e = 'f' then (parseStringBody fuel cs').map fun r => ('\x0c' :: r.1, r.2)
          else if e = 'n' then (parseStringBody fuel cs').map fun r => ('\n' :: r.1, r.2)
          else if e = 'r' then (parseStringBody fuel cs').map fun r => ('\r' :: r.1, r.2)
          else if e = 't' then (parseStringBody fuel cs').map fun r => ('\t' :: r.1, r.2)
          else if e = 'u' then
            match cs' with
            | h1 :: h2 :: h3 :: h4 :: cs'' =>
              match hexVal h1, hexVal h2, hexVal h3, hexVal h4 with
              | some a, some b, some c2, some d =>
                let n := ((a * 16 + b) * 16 + c2) * 16 + d
                if h : n.isValidChar then
                  (parseStringBody fuel cs'').map fun r => (Char.ofNatAux n h :: r.1, r.2)
                else none
              | _, _, _, _ => none
            | _ => none
          else none
      else if c.toNat < 32 then none
      else (parseStringBody fuel cs).map fun r => (c :: r.1, r.2)

/-- Accumulated value of a digit string. -/
def digitsVal (ds : List Char) : Nat :=
  ds.foldl (fun a c => a * 10 + (c.toNat - 48)) 0

/-- The integer part of CPython's `NUMBER_RE`: `0` or `[1-9][0-9]*`. -/
def parseIntPart (cs : List Char) : Option (Nat × List Char) :=
  match cs with
  | c :: rest =>
    if c = '0' then some (0, rest)
    else if c.isDigit then
      let ds := rest.takeWhile Char.isDigit
      some (digitsVal (c :: ds), rest.dropWhile Char.isDigit)
    else none
  | [] => none

/-- Optional fraction `(\.\d+)?`: consumed only when at least one digit
follows the dot. -/
def parseFracPart (cs : List Char) : (Nat × Nat) × List Char :=
  match cs with
  | '.' :: rest =>
    let ds := rest.takeWhile Char.isDigit
    if ds = [] then ((0, 0), cs)
    else ((digitsVal ds, ds.length), rest.dropWhile Char.isDigit)
  | _ => ((0, 0), cs)

/-- Optional exponent `([eE][-+]?\d+)?`: consumed only when digits follow. -/
def parseExpPart (cs : List Char) : Int × List Char :=
  match cs with
  | c :: rest =>
    if c = 'e' ∨ c = 'E' then
      let signRest : Int × List Char :=
        match rest with
        | '+' :: r => (1, r)
        | '-' :: r => (-1, r)
        | _ => (1, rest)
      let ds := signRest.2.takeWhile Char.isDigit
      if ds = [] then (0, cs)
      else (signRest.1 * (digitsVal ds : Int), signRest.2.dropWhile Char.isDigit)
    else (0, cs)
  | [] => (0, cs)

/-- Powers of ten (structural, so that the kernel evaluates it). -/
def pow10 : Nat → Nat
  | 0 => 1
  | n + 1 => 10 * pow10 n

/-- A JSON numeral per CPython's `NUMBER_RE`, valued exactly as
`mantissa × 10^exp10`.  (CPython parses fractions/exponents to IEEE
doubles; the exact value is a modelling choice — no claim depends on
numeric values.) -/
def parseNumber (cs : List Char) : Option (Json × List Char) :=
  let signed : Bool × List Char :=
    match cs with
    | '-' :: rest => (true, rest)
    | _ => (false, cs)
  match parseIntPart signed.2 with
  | none => none
  | some (ip, cs1) =>
    let fr := parseFracPart cs1
    let ex := parseExpPart fr.2
    let mantNat : Nat := ip * pow10 fr.1.2 + fr.1.1
    let mant : Int := if signed.1 then -(mantNat : Int) else (mantNat : Int)
    some (.num mant (ex.1 - (fr.1.2 : Int)), ex.2)

mutual

/-- One JSON value, fuel-bounded recursive descent mirroring CPython's
`json` scanner (strict mode).  Leading whitespace is skipped; the returned
remainder starts right after the value. -/
def parseValue : Nat → List Char → Option (Json × List Char)
  | 0, _ => none
  | fuel + 1, cs =>
    match skipWs cs with
    | [] => none
    | c :: cs' =>
      if c = '{' then
        match skipWs cs' with
        | '}' :: rest => some (.obj [], rest)
        | cs'' => parseMembers fuel cs'' []
      else if c = '[' then
        match skipWs cs' with
        | ']' :: rest => some (.arr [], rest)
        | cs'' => parseElems fuel cs'' []
      else if c = '"' then
        (parseStringBody fuel cs').map fun r => (.str (String.mk r.1), r.2)
      else if isPrefixOfChars ['t', 'r', 'u', 'e'] (c :: cs') then
        some (.bool true, cs'.drop 3)
      else if isPrefixOfChars ['f', 'a', 'l', 's', 'e'] (c :: cs') then
        some (.bool false, cs'.drop 4)
      else if isPrefixOfChars ['n', 'u', 'l', 'l'] (c :: cs') then
        some (.null, cs'.drop 3)
      else if isPrefixOfChars ['N', 'a', 'N'] (c :: cs') then
        some (.nan, cs'.drop 2)
      else if isPrefixOfChars ['I', 'n', 'f', 'i', 'n', 'i', 't', 'y'] (c :: cs') then
        some (.inf, cs'.drop 7)
      else if isPrefixOfChars ['-', 'I', 'n', 'f', 'i', 'n', 'i', 't', 'y'] (c :: cs') then
        some (.negInf, cs'.drop 8)
      else if c = '-' ∨ c.isDigit then
        parseNumber (c :: cs')
      else none

/-- Members of a nonempty object, starting at the first key; `acc` holds the
pairs decoded so far (dict semantics via `insertKV`). -/
def parseMembers : Nat → List Char → List (String × Json) → Option (Json × List Char)
  | 0, _, _ => none
  | fuel + 1, cs, acc =>
    match skipWs cs with
    | '"' :: cs' =>
      match parseStringBody fuel cs' with
      | some (k, cs'') =>
        match skipWs cs'' with
        | ':' :: cs''' =>
          match parseValue fuel cs''' with
          | some (v, rest) =>
            let acc' := insertKV acc (String.mk k) v
            match skipWs rest with
            | ',' :: rest' => parseMembers fuel rest' acc'
            | '}' :: rest' => some (.obj acc', rest')
            | _ => none
          | none => none
        | _ => none
      | none => none
    | _ => none

/-- Elements of a nonempty array; `acc` holds the elements decoded so far. -/
def parseElems : Nat → List Char → List Json → Option (Json × List Char)
  | 0, _, _ => none
  | fuel + 1, cs, acc =>
    match parseValue fuel cs with
    | some (v, rest) =>
      match skipWs rest with
      | ',' :: rest' => parseElems fuel rest' (acc ++ [v])
      | ']' :: rest' => some (.arr (acc ++ [v]), rest')
      | _ => none
    | none => none

end

/-- Model of `json.loads`: a single value with optional surrounding
whitespace, nothing after it.  The fuel `length + 1` never runs out: every
recursive parser call consumes at least one input character first. -/
def jsonLoads (s : String) : Except String Json :=
  match parseValue (s.data.length + 1) s.data with
  | some (v, rest) =>
    if skipWs rest = [] then .ok v else .error "Extra data"
  | none => .error "Expecting value"

/-! ## A JSON renderer (the wire schema requested by the prompt)

The repository itself never serialises an `AnalysisResult` — the upstream
model is asked to emit a JSON object matching the literal example schema in
`_build_prompt`.  `renderJson` below realises that wire format (compact
separators; strings escaped as JSON requires). -/

/-- Lower-case hex digit. -/
def hexDigit (n : Nat) : Char :=
  if n < 10 then Char.ofNat (48 + n) else Char.ofNat (87 + n)

/-- JSON escaping of one character: the named two-character escapes, `\u00XX`
for the remaining control characters, everything else literal. -/
def escapeChar (c : Char) : List Char :=
  if c = '"' then ['\\', '"']
  else if c = '\\' then ['\\', '\\']
  else if c = '\n' then ['\\', 'n']
  else if c = '\t' then ['\\', 't']
  else if c = '\r' then ['\\', 'r']
  else if c = '\x08' then ['\\', 'b']
  else if c = '\x0c' then ['\\', 'f']
  else if c.toNat < 32 then
    ['\\', 'u', '0', '0', hexDigit (c.toNat / 16), hexDigit (c.toNat % 16)]
  else [c]

def escapeList : List Char → List Char
  | [] => []
  | c :: cs => escapeChar c ++ escapeList cs

/-- A JSON string literal. -/
def renderStringChars (s : String) : List Char :=
  '"' :: escapeList s.data ++ ['"']

mutual

/-- Render a JSON value.  (The `num` rendering is schematic; the wire
encoder for `AnalysisResult` never produces numbers, and the round-trip
results below are restricted to number-free values.) -/
def renderJson : Json → List Char
  | .num m e => (toString m).data ++ 'e' :: (toString e).data
  | .str s => renderStringChars s
  | .arr [] => ['[', ']']
  | .arr (v :: vs) => '[' :: renderElemsChars v vs ++ [']']
  | .obj [] => ['{', '}']
  | .obj (kv :: kvs) => '{' :: renderMembersChars kv kvs ++ ['}']
  | .bool false => 'f' :: "alse".data
  | .bool true => 't' :: "rue".data
  | .null => 'n' :: "ull".data
  | .nan => "NaN".data
  | .inf => "Infinity".data
  | .negInf => "-Infinity".data
termination_by j => sizeOf j

def renderElemsChars : Json → List Json → List Char
  | v, [] => renderJson v
  | v, w :: ws => renderJson v ++ ',' :: renderElemsChars w ws
termination_by v vs => 1 + sizeOf v + sizeOf vs

def renderMembersChars : String × Json → List (String × Json) → List Char
  | (k, v), [] => renderStringChars k ++ ':' :: renderJson v
  | (k, v), kv :: kvs =>
    renderStringChars k ++ ':' :: renderJson v ++ ',' :: renderMembersChars kv kvs
termination_by kv kvs => 1 + sizeOf kv + sizeOf kvs

end

mutual

/-- Number-free JSON values whose objects have pairwise-distinct keys at
every level: the fragment over which rendering and `jsonLoads` are mutually
inverse. -/
def wfJson : Json → Bool
  | .null => true
  | .bool _ => true
  | .num _ _ => false
  | .str _ => true
  | .arr l => wfJsonList l
  | .obj kvs => decide (kvs.map Prod.fst).Nodup && wfJsonKVs kvs
  | .nan => false
  | .inf => false
  | .negInf => false

def wfJsonList : List Json → Bool
  | [] => true
  | v :: vs => wfJson v && wfJsonList vs

def wfJsonKVs : List (String × Json) → Bool
  | [] => true
  | (_, v) :: kvs => wfJson v && wfJsonKVs kvs

end

/-! ## `ClaudeAnalyzer` (src/src/claude_analyzer.py) -/

/-- `_parse_result` lines 282–289: strip a fenced code block marker and
surrounding whitespace. -/
def cleanChars (cs : List Char) : List Char :=
  let s1 := pyStripChars cs
  let s2 := if isPrefixOfChars ("```json".data) s1 then s1.drop 7 else s1
  let s3 := if isPrefixOfChars ("```".data) s2 then s2.drop 3 else s2
  let s4 :=
    if isPrefixOfChars ("```".data.reverse) s3.reverse then s3.take (s3.length - 3) else s3
  pyStripChars s4

def cleanResultText (s : String) : String :=
  String.mk (cleanChars s.data)

/-- The six required keys of an `AnalysisResult`, in the order
`_parse_result` checks them. -/
def sixKeys : List String :=
  ["status", "date", "theme", "summary", "keywords", "categories"]

/-- `if k not in result: result[k] = v`. -/
def ensureKey (kvs : List (String × Json)) (k : String) (v : Json) :
    List (String × Json) :=
  match lookupJ kvs k with
  | some _ => kvs
  | none => insertKV kvs k v

/-- `_parse_result` lines 295–306: fill each absent required key with its
type-correct default. -/
def repairResult (kvs : List (String × Json)) (targetDate defaultTheme : String) :
    List (String × Json) :=
  ensureKey (ensureKey (ensureKey (ensureKey (ensureKey (ensureKey kvs
    "status" (.str "success"))
    "date" (.str targetDate))
    "theme" (.str defaultTheme))
    "summary" (.arr []))
    "keywords" (.arr []))
    "categories" (.arr [])

/-- `_parse_result` lines 321–329: the minimal valid result returned when
`json.loads` fails, with the decode error retained as `parse_error`. -/
def decodeFailureResult (targetDate defaultTheme e : String) : Json :=
  .obj [("status", .str "success"), ("date", .str targetDate),
        ("theme", .str defaultTheme), ("summary", .arr [.str "AI 资讯已获取"]),
        ("keywords", .arr [.str "AI"]), ("categories", .arr []),
        ("parse_error", .str e)]

/-- `ClaudeAnalyzer._parse_result`.  The happy paths are the decoded-object
branch (keys repaired) and the decode-failure branch.  When the decoded
value is not a dict, CPython raises: membership (`"status" not in result`)
is list membership for lists and substring containment for strings, and the
subsequent item assignment raises `TypeError` unless every required key was
already "present"; for other types the membership test itself raises.
These exceptions are modelled as `Except.error` (their message text is not
load-bearing: the caller only catches them wholesale). -/
def parse_result (resultText targetDate defaultTheme : String) : Except String Json :=
  let t := cleanResultText resultText
  match jsonLoads t with
  | .ok (.obj kvs) => .ok (.obj (repairResult kvs targetDate defaultTheme))
  | .ok (.arr xs) =>
    if sixKeys.all (fun k => xs.any fun j => match j with | .str s => s = k | _ => false) then
      .ok (.arr xs)
    else .error "TypeError: list indices must be integers or slices, not str"
  | .ok (.str s) =>
    if sixKeys.all (fun k => strContainsSub s k) then .ok (.str s)
    else .error "TypeError: str object does not support item assignment"
  | .ok _ => .error "TypeError: argument is not iterable"
  | .error e => .ok (decodeFailureResult targetDate defaultTheme e)

/-- The canonical content record (`_extract_entry_content`'s dict). -/
structure CanonicalContent where
  title : String
  link : String
  guid : String
  description : String
  content : String
  pubDate : String
deriving DecidableEq

/-- `_empty_result`. -/
def emptyResult (targetDate defaultTheme reason : String) : Json :=
  .obj [("status", .str "empty"), ("date", .str targetDate),
        ("theme", .str defaultTheme), ("summary", .arr []),
        ("keywords", .arr []), ("categories", .arr []),
        ("reason", .str reason)]

/-- `_fallback_categories`. -/
def fallbackCategories (c : CanonicalContent) : Json :=
  .arr [.obj [("key", .str "model"), ("name", .str "模型发布"), ("icon", .str "🤖"),
              ("items", .arr [.obj [("title", .str (c.title.take 100)),
                                    ("summary", .str (c.description.take 200)),
                                    ("url", .str c.link),
                                    ("tags", .arr [.str "AI"])]])]]

/-- The `raw_content` payload (the content dict itself). -/
def contentToJson (c : CanonicalContent) : Json :=
  .obj [("title", .str c.title), ("link", .str c.link), ("guid", .str c.guid),
        ("description", .str c.description), ("content", .str c.content),
        ("pubDate", .str c.pubDate)]

/-- `analyze` lines 149–160: the result synthesized when the service call
(or anything else inside the `try`) raises. -/
def fallbackAnalysisResult (c : CanonicalContent) (targetDate defaultTheme : String) : Json :=
  .obj [("status", .str "success"), ("date", .str targetDate),
        ("theme", .str defaultTheme),
        ("summary", .arr [.str "AI 资讯分析遇到技术问题，以下是原始内容摘要",
                          .str ("标题: " ++ c.title.take 100 ++ "...")]),
        ("keywords", .arr [.str "AI", .str "资讯"]),
        ("categories", fallbackCategories c),
        ("raw_content", contentToJson c)]

/-- One configured category (`CATEGORIES` table of `src/config.py`, which is
not among the sources; injected as configuration). -/
structure CategoryCfg where
  key : String
  name : String
  icon : String
  description : String

/-- One configured theme (`THEMES` table of `src/config.py`). -/
structure ThemeCfg where
  key : String
  name : String
  description : String

/-- The analyzer's configuration (`DEFAULT_THEME`, `CATEGORIES`, `THEMES`
from `src/config.py`, which is not among the sources). -/
structure AnalyzerConfig where
  defaultTheme : String
  categories : List CategoryCfg
  themes : List ThemeCfg

/-- `_build_prompt`.  A literal transcription of the f-string template; the
content body is truncated to its first 15000 characters. -/
def buildPrompt (cfg : AnalyzerConfig) (c : CanonicalContent) (targetDate : String) : String :=
  let categoryDesc := String.intercalate "\n"
    (cfg.categories.map fun cat => "- " ++ cat.icon ++ " " ++ cat.name ++ ": " ++ cat.description)
  let themeDesc := String.intercalate "\n"
    (cfg.themes.map fun t => "- " ++ t.key ++ ": " ++ t.name ++ " - " ++ t.description)
  "你是一个专业的 AI 资讯分析师，请对以下 AI 日报内容进行深度分析。\n\n【目标日期】\n"
  ++ targetDate
  ++ "\n\n【原始资讯内容】\n标题: " ++ c.title
  ++ "\n链接: " ++ c.link
  ++ "\n\n完整内容:\n" ++ c.content.take 15000
  ++ "\n\n---\n\n【任务要求】\n\n1. **状态检查**\n   - 如果内容确实存在且有效，返回状态为 \"success\"\n   - 如果内容为空或无效，返回状态为 \"empty\"\n\n2. **核心摘要** (summary)\n   - 生成 3-5 条今日最重要的 AI 资讯要点\n   - 每条摘要不超过 50 字，简洁明了\n   - 按重要性排序\n\n3. **智能分类** (categories)\n   将资讯按以下维度分类（可空）:\n"
  ++ categoryDesc
  ++ "\n\n   每个分类包含:\n   - key: 分类标识 (model/product/research/tools/funding/events)\n   - name: 分类名称\n   - icon: 分类图标\n   - items: 该分类下的资讯列表\n\n   每条资讯包含:\n   - title: 简化版标题（适合快速浏览，不超过40字）\n   - summary: 一句话核心要点（不超过80字）\n   - url: 相关链接（如果有的话）\n   - tags: 相关标签（如公司名、产品名）\n\n4. **关键词提取** (keywords)\n   - 提取 5-10 个今日热门关键词\n   - 包括: 公司名称、人物、技术名词、产品名\n   - 去重并按重要性排序\n\n5. **主题选择** (theme)\n   根据内容主类别选择最佳主题:\n"
  ++ themeDesc
  ++ "\n\n   选择规则:\n   - 模型/框架/开发工具 → blue (柔和蓝色)\n   - 企业动态/产品发布 → indigo (深靛蓝)\n   - 融资/并购/金融 → teal (冷色青绿)\n   - 创意/AIGC/设计 → purple (优雅紫色)\n   - 医疗/健康AI → green (清新绿色)\n   - 热点/争议话题 → orange (温暖橙色)\n   - 研究/论文/数据 → gray (中性灰色)\n   - 应用/生活/消费 → pink (玫瑰粉色)\n\n【输出格式】\n\n请严格按照以下 JSON 格式输出，不要包含任何其他文字说明：\n\n```json\n\x7b\n  \"status\": \"success\",\n  \"date\": \""
  ++ targetDate
  ++ "\",\n  \"theme\": \"blue\",\n  \"summary\": [\n    \"第一条核心摘要\",\n    \"第二条核心摘要\",\n    \"第三条核心摘要\"\n  ],\n  \"keywords\": [\"Anthropic\", \"Google\", \"Claude\", \"MedGemma\", \"LangChain\"],\n  \"categories\": [\n    \x7b\n      \"key\": \"model\",\n      \"name\": \"模型发布\",\n      \"icon\": \"🤖\",\n      \"items\": [\n        \x7b\n          \"title\": \"MedGemma 1.5 发布\",\n          \"summary\": \"Google 发布 4B 参数医疗多模态模型，支持 3D 影像分析\",\n          \"url\": \"https://news.smol.ai/issues/26-01-13-not-much/\",\n          \"tags\": [\"Google\", \"MedGemma\", \"医疗AI\"]\n        \x7d\n      ]\n    \x7d,\n    \x7b\n      \"key\": \"product\",\n      \"name\": \"产品动态\",\n      \"icon\": \"💼\",\n      \"items\": []\n    \x7d\n  ]\n\x7d\n```\n\n重要：只输出 JSON，不要有任何其他说明文字。确保 JSON 格式正确有效。\n"

/-- `ClaudeAnalyzer.analyze`.  The HTTP request and the response-shape
probing of lines 77–139 live outside the parsing core (spec §2 treats the
model call as an external collaborator): `service` maps the built prompt to
the extracted `result_text`, or to a transport/shape error.  A `None`
content (or, in Python, an empty dict — both are falsy) and a content whose
`content` field is falsy short-circuit to `_empty_result` before the prompt
is built.  Any exception inside the `try` — a failing service call or a
`TypeError` escaping `_parse_result` — lands in the `except` fallback. -/
def analyze (cfg : AnalyzerConfig) (service : String → Except String String)
    (content : Option CanonicalContent) (targetDate : String) : Json :=
  match content with
  | none => emptyResult targetDate cfg.defaultTheme "内容为空"
  | some c =>
    if c.content = "" then emptyResult targetDate cfg.defaultTheme "内容为空"
    else
      let prompt := buildPrompt cfg c targetDate
      match service prompt with
      | .ok resultText =>
        match parse_result resultText targetDate cfg.defaultTheme with
        | .ok r => r
        | .error _ => fallbackAnalysisResult c targetDate cfg.defaultTheme
      | .error _ => fallbackAnalysisResult c targetDate cfg.defaultTheme

/-! ## The `AnalysisResult` record and its wire encoding (for round-trips) -/

/-- An item of a category (§3 of the spec). -/
structure Item where
  title : String
  summary : String
  url : String
  tags : List String

/-- A category of the analysis result (§3 of the spec). -/
structure Category where
  key : String
  name : String
  icon : String
  items : List Item

/-- A fully-populated analysis result: all six keys supplied. -/
structure AnalysisResult where
  status : String
  date : String
  theme : String
  summary : List String
  keywords : List String
  categories : List Category

def itemToJson (it : Item) : Json :=
  .obj [("title", .str it.title), ("summary", .str it.summary),
        ("url", .str it.url), ("tags", .arr (it.tags.map .str))]

def categoryToJson (c : Category) : Json :=
  .obj [("key", .str c.key), ("name", .str c.name), ("icon", .str c.icon),
        ("items", .arr (c.items.map itemToJson))]

/-- The JSON object of the wire schema requested in `_build_prompt`: the six
required keys with the record's values. -/
def analysisToJson (r : AnalysisResult) : Json :=
  .obj [("status", .str r.status), ("date", .str r.date), ("theme", .str r.theme),
        ("summary", .arr (r.summary.map .str)),
        ("keywords", .arr (r.keywords.map .str)),
        ("categories", .arr (r.categories.map categoryToJson))]

/-- Encoding a fully-populated `AnalysisResult` to the requested wire
schema, as text. -/
def wireEncode (r : AnalysisResult) : String :=
  String.mk (renderJson (analysisToJson r))

/-! ## `RSSFetcher` (src/src/rss_fetcher.py) and the fetch_news script -/

/-- A calendar date as delivered by a `time.struct_time` (the first three
components of `entry.published_parsed`) or by a validated `datetime`.  The
range proofs record that these sources only ever hold real dates. -/
structure YMD where
  year : Nat
  month : Nat
  day : Nat
  month_ge : 1 ≤ month
  month_le : month ≤ 12
  day_ge : 1 ≤ day
  day_le : day ≤ 31

/-- A feed entry: an arbitrary bag of optional fields (feedparser's duck
typing).  `contentBlocks` is `entry.content` — each block's optional
`value`; an absent attribute and an empty (falsy) list behave identically
in the code and are both modelled by `[]`.  `publishedParsed` is present
exactly when `entry.published_parsed` exists and is truthy. -/
structure FeedEntry where
  title : Option String := none
  link : Option String := none
  id : Option String := none
  guid : Option String := none
  summary : Option String := none
  contentBlocks : List (Option String) := []
  description : Option String := none
  published : Option String := none
  updated : Option String := none
  publishedParsed : Option YMD := none

/-- `_is_same_day`: equality of the calendar components only. -/
def isSameDay (a b : YMD) : Bool :=
  a.year = b.year ∧ a.month = b.month ∧ a.day = b.day

/-- Exactly `n` decimal digits. -/
def takeDigitsN : Nat → List Char → Option (List Char × List Char)
  | 0, cs => some ([], cs)
  | _ + 1, [] => none
  | n + 1, c :: cs =>
    if c.isDigit then (takeDigitsN n cs).map fun r => (c :: r.1, r.2) else none

/-- Match `/issues/` followed by `year`-many digits, `-`, two digits, `-`,
two digits, `-` at the head of the input; on success return the
`YYYY-MM-DD` string (`"20"` prefixed to a 2-digit year). -/
def issuesDateAt (yearDigits : Nat) (cs : List Char) : Option String :=
  if isPrefixOfChars ("/issues/".data) cs then
    let cs1 := cs.drop 8
    match takeDigitsN yearDigits cs1 with
    | some (y, '-' :: cs2) =>
      match takeDigitsN 2 cs2 with
      | some (m, '-' :: cs3) =>
        match takeDigitsN 2 cs3 with
        | some (d, '-' :: _) =>
          let y4 := if yearDigits = 2 then '2' :: '0' :: y else y
          some (String.mk (y4 ++ '-' :: m ++ '-' :: d))
        | _ => none
      | _ => none
    | _ => none
  else none

/-- `re.search`: try the pattern at every position, leftmost match wins. -/
def searchPattern (p : List Char → Option String) : List Char → Option String
  | [] => none
  | c :: cs =>
    match p (c :: cs) with
    | some r => some r
    | none => searchPattern p cs

/-- `_extract_date_from_link` (identical in both files): the `YY-MM-DD`
pattern is tried over the whole link before the `YYYY-MM-DD` pattern. -/
def extractDateFromLink (link : String) : Option String :=
  match searchPattern (issuesDateAt 2) link.data with
  | some d => some d
  | none => searchPattern (issuesDateAt 4) link.data

/-- The three HTML entity replacements, in source order (sequential
`str.replace` calls). -/
def decodeEntities (s : String) : String :=
  pyReplace (pyReplace (pyReplace s "&lt;" "<") "&gt;" ">") "&amp;" "&"

/-- `RSSFetcher._extract_entry_content`: normalize an entry into the
canonical dict.  Content resolution: first content block's `value`, else
`summary` (presence, not truthiness), else the already-extracted
`description` default; entities are then decoded on `content` only. -/
def extractEntryContent (e : FeedEntry) : CanonicalContent :=
  let title := e.title.getD ""
  let link := e.link.getD ""
  let guid := e.id.getD (e.guid.getD link)
  let desc := e.description.getD ""
  let rawContent :=
    match e.contentBlocks with
    | b :: _ => b.getD ""
    | [] =>
      match e.summary with
      | some s => s
      | none => desc
  let pubDate :=
    match e.published with
    | some p => p
    | none => e.updated.getD ""
  { title := title, link := link, guid := guid, description := desc,
    content := decodeEntities rawContent, pubDate := pubDate }

/-- Days in a month (proleptic Gregorian), as `datetime` validates them. -/
def daysInMonth (year month : Nat) : Nat :=
  if month = 2 then
    if year % 4 = 0 ∧ (year % 100 ≠ 0 ∨ year % 400 = 0) then 29 else 28
  else if month = 4 ∨ month = 6 ∨ month = 9 ∨ month = 11 then 30
  else 31

/-- Candidate matches of `_strptime`'s `%m` regex `1[0-2]|0[1-9]|[1-9]`, in
alternation order, each with the remaining input. -/
def monthCandidates : List Char → List (Nat × List Char)
  | c1 :: c2 :: rest =>
    (if (c1 = '1' ∧ '0' ≤ c2 ∧ c2 ≤ '2') ∨ (c1 = '0' ∧ '1' ≤ c2 ∧ c2 ≤ '9') then
      [((c1.toNat - 48) * 10 + (c2.toNat - 48), rest)]
    else []) ++
    (if '1' ≤ c1 ∧ c1 ≤ '9' then [(c1.toNat - 48, c2 :: rest)] else [])
  | [c1] => if '1' ≤ c1 ∧ c1 ≤ '9' then [(c1.toNat - 48, [])] else []
  | [] => []

/-- Candidate matches of `%d`'s regex `3[01]|[12]\d|0[1-9]|[1-9]`. -/
def dayCandidates : List Char → List (Nat × List Char)
  | c1 :: c2 :: rest =>
    (if (c1 = '3' ∧ (c2 = '0' ∨ c2 = '1')) ∨ (('1' ≤ c1 ∧ c1 ≤ '2') ∧ c2.isDigit) ∨
        (c1 = '0' ∧ '1' ≤ c2 ∧ c2 ≤ '9') then
      [((c1.toNat - 48) * 10 + (c2.toNat - 48), rest)]
    else []) ++
    (if '1' ≤ c1 ∧ c1 ≤ '9' then [(c1.toNat - 48, c2 :: rest)] else [])
  | [c1] => if '1' ≤ c1 ∧ c1 ≤ '9' then [(c1.toNat - 48, [])] else []
  | [] => []

/-- Regex backtracking over an ordered candidate list. -/
def tryCandidates {α : Type} (cands : List (Nat × List Char))
    (k : Nat → List Char → Option α) : Option α :=
  match cands with
  | [] => none
  | (n, rest) :: more =>
    match k n rest with
    | some r => some r
    | none => tryCandidates more k

/-- `datetime.strptime(s, "%Y-%m-%d")`: four year digits, the month and day
alternations with backtracking, full consumption, then `datetime`'s own
range checks — `MINYEAR = 1` on the year and days-in-month on the day.
Returns `none` where Python raises `ValueError`. -/
def parseTargetDate (s : String) : Option YMD :=
  match takeDigitsN 4 s.data with
  | some (ys, '-' :: cs1) =>
    let y := digitsVal ys
    tryCandidates (monthCandidates cs1) fun m cs2 =>
      match cs2 with
      | '-' :: cs3 =>
        tryCandidates (dayCandidates cs3) fun d cs4 =>
          if cs4 = [] then
            if h : 1 ≤ y ∧ 1 ≤ m ∧ m ≤ 12 ∧ 1 ≤ d ∧ d ≤ daysInMonth y m then
              some ⟨y, m, d, h.2.1, h.2.2.1, h.2.2.2.1, le_trans h.2.2.2.2 (by
                unfold daysInMonth; split <;> [split; skip] <;> [omega; omega; (split <;> omega)])⟩
            else none
          else none
      | _ => none
  | _ => none

/-- `dt.strftime("%Y-%m-%d")`: zero-padded components. -/
def formatYMD (p : YMD) : String :=
  let pad2 := fun (n : Nat) => if n < 10 then "0" ++ toString n else toString n
  let pad4 := fun (n : Nat) =>
    if n < 10 then "000" ++ toString n
    else if n < 100 then "00" ++ toString n
    else if n < 1000 then "0" ++ toString n
    else toString n
  pad4 p.year ++ "-" ++ pad2 p.month ++ "-" ++ pad2 p.day

/-- Method 1 of `get_content_by_date`: the entry has a truthy
`published_parsed` falling on the same calendar day as the target. -/
def matchesPub (t : YMD) (e : FeedEntry) : Bool :=
  match e.publishedParsed with
  | some p => isSameDay p t
  | none => false

/-- Method 2 of `get_content_by_date`: the entry has a link bearing an
extractable date that is truthy and equal to the target string. -/
def matchesLink (target : String) (e : FeedEntry) : Bool :=
  match e.link with
  | some l =>
    match extractDateFromLink l with
    | some d => decide (¬ d = "" ∧ d = target)
    | none => false
  | none => false

/-- The fetch_news variant of method 1: the formatted timestamp equals the
target string. -/
def fnMatchesPub (target : String) (e : FeedEntry) : Bool :=
  match e.publishedParsed with
  | some p => decide (formatYMD p = target)
  | none => false

/-- The per-entry matching loop of `RSSFetcher.get_content_by_date`:
method 1 checks the publication timestamp (same calendar day), method 2 the
link-extracted date (string equality with the target); the first entry
where either succeeds is extracted. -/
def entryLoop (target : String) (t : YMD) : List FeedEntry → Option CanonicalContent
  | [] => none
  | e :: es =>
    if matchesPub t e then
      some (extractEntryContent e)
    else if matchesLink target e then
      some (extractEntryContent e)
    else entryLoop target t es

/-- `RSSFetcher.get_content_by_date`: a malformed target date raises
`ValueError` (modelled as `Except.error`); otherwise the first matching
entry is extracted, `none` when no entry matches. -/
def getContentByDate (feed : List FeedEntry) (target : String) :
    Except String (Option CanonicalContent) :=
  match parseTargetDate target with
  | none => .error ("日期格式错误: " ++ target ++ "，期望格式: YYYY-MM-DD")
  | some t => .ok (entryLoop target t feed)

/-- `RSSFetcher.get_date_range`: collect link-extracted dates over all
entries; `(None, None)` on an empty feed or when no entry yields one. -/
def getDateRange (feed : List FeedEntry) : Option String × Option String :=
  if feed.isEmpty then (none, none)
  else
    let dates := feed.foldl (fun acc e =>
      match e.link with
      | some l =>
        match extractDateFromLink l with
        | some d => acc ++ [d]
        | none => acc
      | none => acc) []
    if dates = [] then (none, none) else (dates.min?, dates.max?)

/-- The content dict of the fetch_news script (`title, link, pubDate,
content` only). -/
structure FnContent where
  title : String
  link : String
  pubDate : String
  content : String
deriving DecidableEq

/-- fetch_news `extract_entry_content`: like the `RSSFetcher` one but with
no `description`/`guid`, and the final content fallback is the title. -/
def fnExtractEntryContent (e : FeedEntry) : FnContent :=
  let title := e.title.getD ""
  let link := e.link.getD ""
  let pubDate := e.published.getD ""
  let rawContent :=
    match e.contentBlocks with
    | b :: _ => b.getD ""
    | [] =>
      match e.summary with
      | some s => s
      | none => title
  { title := title, link := link, pubDate := pubDate,
    content := decodeEntities rawContent }

/-- fetch_news `get_content_by_date`: per entry, the link-extracted date is
compared first, then the formatted publication timestamp; the target string
is never validated. -/
def fnGetContentByDate (feed : List FeedEntry) (target : String) : Option FnContent :=
  match feed with
  | [] => none
  | e :: es =>
    if matchesLink target e then
      some (fnExtractEntryContent e)
    else if fnMatchesPub target e then
      some (fnExtractEntryContent e)
    else fnGetContentByDate es target

/-- fetch_news `get_date_range`: method 1 reads the link, and only an entry
*without* a `link` attribute falls through (`elif`) to method 2, the
formatted publication timestamp. -/
def fnGetDateRange (feed : List FeedEntry) : Option String × Option String :=
  let dates := feed.foldl (fun acc e =>
    match e.link with
    | some l =>
      match extractDateFromLink l with
      | some d => acc ++ [d]
      | none => acc
    | none =>
      match e.publishedParsed with
      | some p => acc ++ [formatYMD p]
      | none => acc) []
  if dates = [] then (none, none) else (dates.min?, dates.max?)

/-! ## `HTMLGenerator.update_index` (src/src/html_generator.py) -/

/-- One entry of the persisted rolling index (`.index.json`). -/
structure IndexEntry where
  date : String
  url : String
  summary : String
  timestamp : String
deriving DecidableEq

/-- The entry `update_index` builds for the new date: the page URL, the
first summary line truncated to 100 characters, and the generation
timestamp. -/
def newIndexEntry (date : String) (result : Option AnalysisResult) (now : String) :
    IndexEntry :=
  let summary := match result with
    | some r => r.summary
    | none => []
  let summaryText := match summary with
    | [] => "暂无摘要"
    | s :: _ => s
  ⟨date, date ++ ".html", summaryText.take 100, now⟩

/-- `HTMLGenerator.update_index`, its pure core: drop any existing entry of
the same date, insert the new entry first, keep the most recent 30. -/
def updateIndex (existing : List IndexEntry) (date : String)
    (result : Option AnalysisResult) (now : String) : List IndexEntry :=
  (newIndexEntry date result now :: existing.filter (fun e => ¬ e.date = date)).take 30

/-! ## Small helpers used only by the statements below -/

/-- A concrete calendar date with bundled range facts. -/
def ymd (y m d : Nat) (hm : 1 ≤ m ∧ m ≤ 12) (hd : 1 ≤ d ∧ d ≤ 31) : YMD :=
  ⟨y, m, d, hm.1, hm.2, hd.1, hd.2⟩

/-- Strategy 1 as a function of an entry: the date embedded in the link,
when the entry has a link at all. -/
def linkDate (e : FeedEntry) : Option String :=
  e.link.bind extractDateFromLink

/-- The type-correct default `_parse_result` fills in for a missing required
key. -/
def sixDefault (k targetDate defaultTheme : String) : Json :=
  if k = "status" then .str "success"
  else if k = "date" then .str targetDate
  else if k = "theme" then .str defaultTheme
  else .arr []

/-! # Theorems -/

/-! ## Dictionary lemmas -/

theorem lookupJ_insertKV (l : List (String × Json)) (k k' : String) (v : Json) :
    lookupJ (insertKV l k v) k' = if k' = k then some v else lookupJ l k' := by
  induction l with
  | nil =>
    by_cases h : k' = k
    · subst h; simp [insertKV, lookupJ]
    · simp [insertKV, lookupJ, h, Ne.symm h]
  | cons kv rest ih =>
    obtain ⟨k₀, v₀⟩ := kv
    by_cases h0 : k₀ = k
    · subst h0
      by_cases h1 : k₀ = k'
      · subst h1; simp [insertKV, lookupJ]
      · simp [insertKV, lookupJ, h1, Ne.symm h1]
    · by_cases h1 : k₀ = k'
      · subst h1
        simp [insertKV, lookupJ, h0, Ne.symm h0]
      · simp [insertKV, lookupJ, h0, h1, ih]

theorem lookupJ_ensureKey (l : List (String × Json)) (k k' : String) (v : Json) :
    lookupJ (ensureKey l k v) k' =
      if k' = k then some ((lookupJ l k).getD v) else lookupJ l k' := by
  unfold ensureKey
  cases h : lookupJ l k with
  | some w =>
    by_cases h1 : k' = k
    · subst h1; simp [h]
    · simp [h1]
  | none =>
    rw [lookupJ_insertKV]
    by_cases h1 : k' = k <;> simp [h, h1]

theorem insertKV_fresh (l : List (String × Json)) (k : String) (v : Json)
    (h : k ∉ l.map Prod.fst) : insertKV l k v = l ++ [(k, v)] := by
  induction l with
  | nil => rfl
  | cons kv rest ih =>
    obtain ⟨k₀, v₀⟩ := kv
    simp only [List.map_cons, List.mem_cons] at h
    push_neg at h
    simp [insertKV, Ne.symm h.1, ih h.2]

theorem ensureKey_present (l : List (String × Json)) (k : String) (v w : Json)
    (h : lookupJ l k = some w) : ensureKey l k v = l := by
  unfold ensureKey
  rw [h]

/-! ## C10: local empty-content short-circuit of `analyze` -/

/-- **C10.**  For every target date, if the canonical content record is
absent (`None`/falsy) or its `content` field is empty, `analyze` returns —
for every possible behaviour of the analysis service, hence without
contacting it — the `_empty_result` payload: `status="empty"`,
`date=targetDate`, the configured default theme, empty summary, keywords
and categories, and the non-empty reason `"内容为空"`. -/
theorem analyze_empty_shortcircuit (cfg : AnalyzerConfig)
    (service : String → Except String String) (content : Option CanonicalContent)
    (targetDate : String)
    (h : content = none ∨ ∃ c, content = some c ∧ c.content = "") :
    analyze cfg service content targetDate =
      .obj [("status", .str "empty"), ("date", .str targetDate),
            ("theme", .str cfg.defaultTheme), ("summary", .arr []),
            ("keywords", .arr []), ("categories", .arr []),
            ("reason", .str "内容为空")] ∧ ¬ ("内容为空" : String) = "" := by
  refine ⟨?_, by decide⟩
  rcases h with rfl | ⟨c, rfl, hc⟩
  · rfl
  · simp [analyze, hc, emptyResult]

/-- Witness for C10 at a concrete configuration, service and date. -/
theorem analyze_empty_shortcircuit_witness :
    analyze ⟨"blue", [], []⟩ (fun _ => .error "unreachable") none "2026-01-13" =
      .obj [("status", .str "empty"), ("date", .str "2026-01-13"),
            ("theme", .str "blue"), ("summary", .arr []),
            ("keywords", .arr []), ("categories", .arr []),
            ("reason", .str "内容为空")] :=
  (analyze_empty_shortcircuit ⟨"blue", [], []⟩ (fun _ => .error "unreachable")
    none "2026-01-13" (Or.inl rfl)).1

/-! ## C9: invariants of the rolling index after `update_index` -/

/-- **C9.**  After an update of the rolling index whose stored entries have
pairwise-distinct dates (as every index produced by `update_index` does),
the stored list holds at most 30 entries, its dates are pairwise distinct —
any pre-existing entry of the same date having been dropped rather than
duplicated — and the newly built entry sits first. -/
theorem updateIndex_invariants (existing : List IndexEntry) (date : String)
    (result : Option AnalysisResult) (now : String)
    (h : (existing.map IndexEntry.date).Nodup) :
    (updateIndex existing date result now).length ≤ 30 ∧
    ((updateIndex existing date result now).map IndexEntry.date).Nodup ∧
    (updateIndex existing date result now).head? = some (newIndexEntry date result now) ∧
    ∀ e ∈ (updateIndex existing date result now).tail, ¬ e.date = date := by
  set filtered := existing.filter (fun e => ¬ e.date = date) with hf
  have hnodup : ((newIndexEntry date result now :: filtered).map IndexEntry.date).Nodup := by
    rw [List.map_cons, List.nodup_cons]
    constructor
    · intro hmem
      obtain ⟨e, he, hed⟩ := List.mem_map.mp hmem
      have := (List.mem_filter.mp he).2
      simp only [newIndexEntry] at hed
      simp [hed] at this
    · exact ((List.filter_sublist existing).map IndexEntry.date).nodup h
  refine ⟨?_, ?_, ?_, ?_⟩
  · exact le_of_eq_of_le (List.length_take 30 _) (min_le_left _ _)
  · rw [updateIndex, ← hf, List.map_take]
    exact (List.take_sublist _ _).nodup hnodup
  · simp [updateIndex, List.take_succ_cons]
  · intro e he
    rw [updateIndex, ← hf, List.take_succ_cons] at he
    simp only [List.tail_cons] at he
    have : e ∈ filtered := (List.take_sublist _ _).mem he
    simpa using (List.mem_filter.mp this).2

/-- Witness for C9 at a concrete index state that already contains the
updated date. -/
theorem updateIndex_invariants_witness :
    (([⟨"2026-01-13", "2026-01-13.html", "old", "t1"⟩,
       ⟨"2026-01-12", "2026-01-12.html", "x", "t0"⟩] :
        List IndexEntry).map IndexEntry.date).Nodup ∧
    (updateIndex [⟨"2026-01-13", "2026-01-13.html", "old", "t1"⟩,
       ⟨"2026-01-12", "2026-01-12.html", "x", "t0"⟩] "2026-01-13" none "t2").length ≤ 30 ∧
    ((updateIndex [⟨"2026-01-13", "2026-01-13.html", "old", "t1"⟩,
       ⟨"2026-01-12", "2026-01-12.html", "x", "t0"⟩] "2026-01-13" none "t2").map
        IndexEntry.date).Nodup ∧
    (updateIndex [⟨"2026-01-13", "2026-01-13.html", "old", "t1"⟩,
       ⟨"2026-01-12", "2026-01-12.html", "x", "t0"⟩] "2026-01-13" none "t2").head? =
      some (newIndexEntry "2026-01-13" none "t2") :=
  ⟨by decide,
   (updateIndex_invariants _ "2026-01-13" none "t2" (by decide)).1,
   (updateIndex_invariants _ "2026-01-13" none "t2" (by decide)).2.1,
   (updateIndex_invariants _ "2026-01-13" none "t2" (by decide)).2.2.1⟩

/-! ## C5: `NotFound` is a value, not an exception -/

/-- **C5.**  For a well-formed target date and any feed in which no entry
matches — neither by publication timestamp nor by link-extracted date —
`get_content_by_date` returns the distinguished `None` (not an error), and
`get_date_range` of the empty feed is `(None, None)`. -/
theorem getContentByDate_notFound (feed : List FeedEntry) (target : String) (t : YMD)
    (h : parseTargetDate target = some t)
    (hno : ∀ e ∈ feed,
      (∀ p, e.publishedParsed = some p → isSameDay p t = false) ∧
      (∀ l d, e.link = some l → extractDateFromLink l = some d → ¬ d = target)) :
    getContentByDate feed target = .ok none ∧ getDateRange [] = (none, none) := by
  refine ⟨?_, rfl⟩
  have hloop : ∀ fd, (∀ e ∈ fd,
      (∀ p, e.publishedParsed = some p → isSameDay p t = false) ∧
      (∀ l d, e.link = some l → extractDateFromLink l = some d → ¬ d = target)) →
      entryLoop target t fd = none := by
    intro fd
    induction fd with
    | nil => intro _; rfl
    | cons e es ih =>
      intro hall
      have he := hall e (by simp)
      have h1 : matchesPub t e = false := by
        unfold matchesPub
        cases hp : e.publishedParsed with
        | some p => exact he.1 p hp
        | none => rfl
      have h2 : matchesLink target e = false := by
        unfold matchesLink
        cases hl : e.link with
        | some l =>
          cases hd : extractDateFromLink l with
          | some d =>
            have hne := he.2 l d hl hd
            simp [hd, hne]
          | none => simp [hd]
        | none => rfl
      unfold entryLoop
      rw [h1, h2]
      simp only [Bool.false_eq_true, if_false]
      exact ih fun e' h' => hall e' (List.mem_cons_of_mem _ h')
  simp [getContentByDate, h, hloop feed hno]

/-- Witness for C5: the empty feed and target `"2026-01-14"`. -/
theorem getContentByDate_notFound_witness :
    parseTargetDate "2026-01-14" = some (ymd 2026 1 14 (by decide) (by decide)) ∧
    getContentByDate [] "2026-01-14" = .ok none ∧
    getDateRange [] = (none, none) :=
  ⟨rfl,
   (getContentByDate_notFound [] "2026-01-14" (ymd 2026 1 14 (by decide) (by decide))
      rfl (by simp)).1,
   (getContentByDate_notFound [] "2026-01-14" (ymd 2026 1 14 (by decide) (by decide))
      rfl (by simp)).2⟩

/-! ## C6: the concrete scenario entry -/

/-- **C6.**  For the entry with link
`https://news.smol.ai/issues/26-01-13-not-much/` and summary
`"Hello &amp; World"` and target `"2026-01-13"`, resolution produces the
canonical record whose `content` is `"Hello & World"` (entities decoded on
the `content` field only — every other field is exactly the raw input or
empty, the summary's `&amp;` reaching no other field) and whose `pubDate`
is empty. -/
theorem resolve_scenario_entry :
    getContentByDate
      [{ link := some "https://news.smol.ai/issues/26-01-13-not-much/",
         summary := some "Hello &amp; World" }] "2026-01-13" =
      .ok (some { title := "", link := "https://news.smol.ai/issues/26-01-13-not-much/",
                  guid := "https://news.smol.ai/issues/26-01-13-not-much/",
                  description := "", content := "Hello & World", pubDate := "" }) := by
  rfl


/-! ## C2: both date strategies are consulted per entry -/

/-- **C2 (counterexample).**  An entry whose link-embedded date is
`2026-01-13` but whose publication timestamp is 2026-01-14 *does* match the
target `"2026-01-14"` in `get_content_by_date` — the claim's
link-date-first, first-match-wins discipline would leave the timestamp
unconsulted and report `NotFound`. -/
theorem dateMatch_linkFirst_counterexample :
    extractDateFromLink "https://news.smol.ai/issues/26-01-13-not-much/" = some "2026-01-13" ∧
    ¬ ("2026-01-13" : String) = "2026-01-14" ∧
    getContentByDate
      [{ link := some "https://news.smol.ai/issues/26-01-13-not-much/",
         publishedParsed := some (ymd 2026 1 14 (by decide) (by decide)) }] "2026-01-14" =
      .ok (some (extractEntryContent
        { link := some "https://news.smol.ai/issues/26-01-13-not-much/",
          publishedParsed := some (ymd 2026 1 14 (by decide) (by decide)) })) ∧
    ¬ getContentByDate
      [{ link := some "https://news.smol.ai/issues/26-01-13-not-much/",
         publishedParsed := some (ymd 2026 1 14 (by decide) (by decide)) }] "2026-01-14" =
      .ok none := by
  refine ⟨rfl, by decide, rfl, fun hc => ?_⟩
  have h3 : getContentByDate
      [{ link := some "https://news.smol.ai/issues/26-01-13-not-much/",
         publishedParsed := some (ymd 2026 1 14 (by decide) (by decide)) }] "2026-01-14" =
      .ok (some (extractEntryContent
        { link := some "https://news.smol.ai/issues/26-01-13-not-much/",
          publishedParsed := some (ymd 2026 1 14 (by decide) (by decide)) })) := rfl
  rw [h3] at hc
  exact Option.noConfusion (Except.ok.inj hc)

/-- **C2 (amended).**  Date extraction applies *both* strategies to every
entry, with no first-strategy exclusion: an entry matches the target when
its publication timestamp falls on the target day *or* its link-embedded
date equals the target (`RSSFetcher.get_content_by_date` checks the
timestamp first, the fetch_news script the link first); the first entry in
feed order satisfying the disjunction is the one extracted. -/
theorem dateMatch_disjunction :
    (∀ (feed : List FeedEntry) (target : String) (t : YMD),
      parseTargetDate target = some t →
      getContentByDate feed target =
        .ok ((feed.find? fun e => matchesPub t e || matchesLink target e).map
          extractEntryContent)) ∧
    (∀ (feed : List FeedEntry) (target : String),
      fnGetContentByDate feed target =
        (feed.find? fun e => matchesLink target e || fnMatchesPub target e).map
          fnExtractEntryContent) := by
  constructor
  · intro feed target t h
    simp only [getContentByDate, h]
    congr 1
    induction feed with
    | nil => rfl
    | cons e es ih =>
      unfold entryLoop
      rcases Bool.eq_false_or_eq_true (matchesPub t e) with h1 | h1 <;>
        rcases Bool.eq_false_or_eq_true (matchesLink target e) with h2 | h2 <;>
        simp [List.find?, h1, h2, ih]
  · intro feed target
    induction feed with
    | nil => rfl
    | cons e es ih =>
      unfold fnGetContentByDate
      rcases Bool.eq_false_or_eq_true (matchesLink target e) with h1 | h1 <;>
        rcases Bool.eq_false_or_eq_true (fnMatchesPub target e) with h2 | h2 <;>
        simp [List.find?, h1, h2, ih]

/-- Witness for the amended C2: on the single-entry feed of the
counterexample, the characterisation reproduces the entry found through
its timestamp. -/
theorem dateMatch_disjunction_witness :
    parseTargetDate "2026-01-14" = some (ymd 2026 1 14 (by decide) (by decide)) ∧
    getContentByDate
      [{ link := some "https://news.smol.ai/issues/26-01-13-not-much/",
         publishedParsed := some (ymd 2026 1 14 (by decide) (by decide)) }] "2026-01-14" =
      .ok (some (extractEntryContent
        { link := some "https://news.smol.ai/issues/26-01-13-not-much/",
          publishedParsed := some (ymd 2026 1 14 (by decide) (by decide)) })) :=
  ⟨rfl,
   (dateMatch_disjunction.1
      [{ link := some "https://news.smol.ai/issues/26-01-13-not-much/",
         publishedParsed := some (ymd 2026 1 14 (by decide) (by decide)) }]
      "2026-01-14" (ymd 2026 1 14 (by decide) (by decide)) rfl).trans rfl⟩

/-! ## C3: the final content fallback of `_extract_entry_content` -/

/-- **C3 (counterexample).**  For an entry carrying only a title (no
content block, no summary, no description), `RSSFetcher`'s canonical
`content` is the empty string — the `description` default — and *not* the
title; only the fetch_news script falls back to the title. -/
theorem contentFallback_counterexample :
    (extractEntryContent { title := some "T" }).content = "" ∧
    ¬ ("" : String) = "T" ∧
    (fnExtractEntryContent { title := some "T" }).content = "T" :=
  ⟨rfl, by decide, rfl⟩

/-- **C3 (amended).**  Content resolution order: the first content block's
value, else the summary (when the field exists), else — in
`RSSFetcher._extract_entry_content` — the entry's `description` defaulted
to the empty string, while the fetch_news script's variant falls back to
the title; entity decoding is then applied to the resolved text. -/
theorem content_resolution_order (e : FeedEntry) :
    (∀ b bs, e.contentBlocks = b :: bs →
      (extractEntryContent e).content = decodeEntities (b.getD "") ∧
      (fnExtractEntryContent e).content = decodeEntities (b.getD "")) ∧
    (∀ s, e.contentBlocks = [] → e.summary = some s →
      (extractEntryContent e).content = decodeEntities s ∧
      (fnExtractEntryContent e).content = decodeEntities s) ∧
    (e.contentBlocks = [] → e.summary = none →
      (extractEntryContent e).content = decodeEntities (e.description.getD "") ∧
      (fnExtractEntryContent e).content = decodeEntities (e.title.getD "")) := by
  refine ⟨?_, ?_, ?_⟩
  · intro b bs hb
    constructor <;> simp [extractEntryContent, fnExtractEntryContent, hb]
  · intro s hb hs
    constructor <;> simp [extractEntryContent, fnExtractEntryContent, hb, hs]
  · intro hb hs
    constructor <;> simp [extractEntryContent, fnExtractEntryContent, hb, hs]

/-- Witness for the amended C3 at the title-only entry. -/
theorem content_resolution_order_witness :
    (extractEntryContent { title := some "T" }).content =
      decodeEntities ((none : Option String).getD "") ∧
    (fnExtractEntryContent { title := some "T" }).content =
      decodeEntities ((some "T" : Option String).getD "") :=
  (content_resolution_order { title := some "T" }).2.2 rfl rfl

/-! ## C7: `dateRange` and the two implementations' strategies -/

/-- **C7 (counterexample).**  In the fetch_news script, an entry with no
link field at all but a publication timestamp *does* contribute its
formatted timestamp to the date range: with no entry contributing a
link-date the result is not `(none, none)`. -/
theorem fnDateRange_counterexample :
    ({ publishedParsed := some (ymd 2026 1 13 (by decide) (by decide)) } : FeedEntry).link
      = none ∧
    fnGetDateRange [{ publishedParsed := some (ymd 2026 1 13 (by decide) (by decide)) }] =
      (some "2026-01-13", some "2026-01-13") ∧
    ¬ fnGetDateRange [{ publishedParsed := some (ymd 2026 1 13 (by decide) (by decide)) }] =
      ((none : Option String), (none : Option String)) := by
  refine ⟨rfl, rfl, fun hc => ?_⟩
  have h2 : fnGetDateRange
      [{ publishedParsed := some (ymd 2026 1 13 (by decide) (by decide)) }] =
      (some "2026-01-13", some "2026-01-13") := rfl
  rw [h2] at hc
  exact Option.noConfusion (congrArg Prod.fst hc)

/-- **C7 (amended).**  `RSSFetcher.get_date_range` computes its pair from
strategy 1 only: the min/max of the link-extracted dates, `(none, none)`
when no entry contributes one.  The fetch_news script's `get_date_range`
agrees on every feed whose entries all carry a link field; an entry without
a link field falls through to its publication timestamp instead. -/
theorem dateRange_strategy1 :
    (∀ feed : List FeedEntry,
      getDateRange feed =
        ((feed.filterMap linkDate).min?, (feed.filterMap linkDate).max?)) ∧
    (∀ feed : List FeedEntry, (∀ e ∈ feed, e.link ≠ none) →
      fnGetDateRange feed =
        ((feed.filterMap linkDate).min?, (feed.filterMap linkDate).max?)) := by
  have hfold : ∀ (feed : List FeedEntry) (acc : List String),
      feed.foldl (fun acc e =>
        match e.link with
        | some l =>
          match extractDateFromLink l with
          | some d => acc ++ [d]
          | none => acc
        | none => acc) acc = acc ++ feed.filterMap linkDate := by
    intro feed
    induction feed with
    | nil => simp
    | cons e es ih =>
      intro acc
      rw [List.foldl_cons, ih, List.filterMap_cons]
      cases hl : e.link with
      | none => simp [linkDate, hl]
      | some l =>
        cases hd : extractDateFromLink l with
        | none => simp [linkDate, hl, hd, Option.bind]
        | some d => simp [linkDate, hl, hd, Option.bind]
  have hfoldFn : ∀ (feed : List FeedEntry) (acc : List String),
      (∀ e ∈ feed, e.link ≠ none) →
      feed.foldl (fun acc e =>
        match e.link with
        | some l =>
          match extractDateFromLink l with
          | some d => acc ++ [d]
          | none => acc
        | none =>
          match e.publishedParsed with
          | some p => acc ++ [formatYMD p]
          | none => acc) acc = acc ++ feed.filterMap linkDate := by
    intro feed
    induction feed with
    | nil => simp
    | cons e es ih =>
      intro acc hall
      have hlink := hall e (by simp)
      rw [List.foldl_cons, ih _ (fun e' h' => hall e' (List.mem_cons_of_mem _ h')),
        List.filterMap_cons]
      cases hl : e.link with
      | none => exact absurd hl hlink
      | some l =>
        cases hd : extractDateFromLink l with
        | none => simp [linkDate, hl, hd, Option.bind]
        | some d => simp [linkDate, hl, hd, Option.bind]
  constructor
  · intro feed
    unfold getDateRange
    cases hfe : feed.isEmpty with
    | true =>
      have : feed = [] := List.isEmpty_iff.mp hfe
      subst this
      rfl
    | false =>
      simp only [hfe, Bool.false_eq_true, if_false, hfold feed [], List.nil_append]
      cases hd : feed.filterMap linkDate with
      | nil => simp
      | cons d ds => simp
  · intro feed hall
    unfold fnGetDateRange
    simp only [hfoldFn feed [] hall, List.nil_append]
    cases hd : feed.filterMap linkDate with
    | nil => simp
    | cons d ds => simp

/-- Witness for the amended C7: a feed whose single entry has an
unparseable link yields `(none, none)` under both implementations. -/
theorem dateRange_strategy1_witness :
    (∀ e ∈ [({ link := some "https://news.smol.ai/about" } : FeedEntry)], e.link ≠ none) ∧
    getDateRange [{ link := some "https://news.smol.ai/about" }] =
      ((none : Option String), (none : Option String)) ∧
    fnGetDateRange [{ link := some "https://news.smol.ai/about" }] =
      ((none : Option String), (none : Option String)) :=
  ⟨by simp,
   (dateRange_strategy1.1 [{ link := some "https://news.smol.ai/about" }]).trans rfl,
   (dateRange_strategy1.2 [{ link := some "https://news.smol.ai/about" }]
      (by simp)).trans rfl⟩


/-! ## C1: partial objects are repaired with type-correct defaults -/

/-- **C1.**  Whenever the raw response text, after fence-stripping and
trimming, decodes as a JSON object, `_parse_result` returns that object
repaired, never rejected: every one of the six required keys is present in
the result, a key already present keeps its decoded value, an absent key
is filled with its type-correct default (`status`→`"success"`,
`date`→`targetDate`, `theme`→the configured default theme,
`summary`/`keywords`/`categories`→the empty sequence), and keys outside
the six are untouched. -/
theorem parse_repairs_partial_objects (raw targetDate defaultTheme : String)
    (kvs : List (String × Json))
    (h : jsonLoads (cleanResultText raw) = .ok (.obj kvs)) :
    parse_result raw targetDate defaultTheme =
      .ok (.obj (repairResult kvs targetDate defaultTheme)) ∧
    (∀ k ∈ sixKeys, lookupJ (repairResult kvs targetDate defaultTheme) k =
      some ((lookupJ kvs k).getD (sixDefault k targetDate defaultTheme))) ∧
    (∀ k, k ∉ sixKeys →
      lookupJ (repairResult kvs targetDate defaultTheme) k = lookupJ kvs k) := by
  refine ⟨?_, ?_, ?_⟩
  · simp only [parse_result, cleanResultText] at h ⊢
    rw [h]
  · intro k hk
    simp only [sixKeys, List.mem_cons, List.mem_singleton, List.not_mem_nil, or_false] at hk
    rcases hk with rfl | rfl | rfl | rfl | rfl | rfl <;>
      simp [repairResult, lookupJ_ensureKey, sixDefault]
  · intro k hk
    simp only [sixKeys, List.mem_cons, List.mem_singleton, List.not_mem_nil, or_false] at hk
    push_neg at hk
    obtain ⟨h1, h2, h3, h4, h5, h6⟩ := hk
    simp [repairResult, lookupJ_ensureKey, h1, h2, h3, h4, h5, h6]

/-- Witness for C1: the fenced input of the spec's scenario, target
`"2026-01-13"`, default theme `"blue"`: the result carries all six keys,
`status="success"` as supplied, the other five at their defaults. -/
theorem parse_repairs_partial_objects_witness :
    jsonLoads (cleanResultText "```json\n\x7b\"status\":\"success\"\x7d\n```") =
      .ok (.obj [("status", .str "success")]) ∧
    parse_result "```json\n\x7b\"status\":\"success\"\x7d\n```" "2026-01-13" "blue" =
      .ok (.obj (repairResult [("status", .str "success")] "2026-01-13" "blue")) ∧
    repairResult [("status", .str "success")] "2026-01-13" "blue" =
      [("status", .str "success"), ("date", .str "2026-01-13"), ("theme", .str "blue"),
       ("summary", .arr []), ("keywords", .arr []), ("categories", .arr [])] :=
  ⟨rfl,
   (parse_repairs_partial_objects "```json\n\x7b\"status\":\"success\"\x7d\n```"
      "2026-01-13" "blue" [("status", .str "success")] rfl).1,
   rfl⟩

/-! ## C4: decode failure yields the minimal valid result, not an exception -/

/-- **C4.**  Whenever the raw response text does not decode as JSON after
fence-stripping and trimming, `_parse_result` returns — it does not raise —
the minimal structurally valid result: `status="success"`,
`date=targetDate`, the configured default theme, the non-empty generic
acquisition notice as the single summary line, `keywords=["AI"]`, empty
`categories`, and the decode error retained additively under
`parse_error`. -/
theorem parse_decodeFailure_fallback (raw targetDate defaultTheme e : String)
    (h : jsonLoads (cleanResultText raw) = .error e) :
    parse_result raw targetDate defaultTheme =
      .ok (.obj [("status", .str "success"), ("date", .str targetDate),
                 ("theme", .str defaultTheme), ("summary", .arr [.str "AI 资讯已获取"]),
                 ("keywords", .arr [.str "AI"]), ("categories", .arr []),
                 ("parse_error", .str e)]) ∧
    ¬ ("AI 资讯已获取" : String) = "" := by
  refine ⟨?_, by decide⟩
  simp only [parse_result, cleanResultText] at h ⊢
  rw [h]
  rfl

/-- Witness for C4 on concrete non-JSON garbage. -/
theorem parse_decodeFailure_fallback_witness :
    jsonLoads (cleanResultText "not json at all") = .error "Expecting value" ∧
    parse_result "not json at all" "2026-01-13" "blue" =
      .ok (.obj [("status", .str "success"), ("date", .str "2026-01-13"),
                 ("theme", .str "blue"), ("summary", .arr [.str "AI 资讯已获取"]),
                 ("keywords", .arr [.str "AI"]), ("categories", .arr []),
                 ("parse_error", .str "Expecting value")]) :=
  ⟨rfl,
   (parse_decodeFailure_fallback "not json at all" "2026-01-13" "blue"
      "Expecting value" rfl).1⟩


/-! ## C8: wire-schema round trip

The remaining results establish that `jsonLoads` inverts `renderJson` on
number-free values with distinct object keys, and hence that `parse`
reproduces a fully-populated encoded `AnalysisResult` unchanged. -/

theorem hexVal_hexDigit : ∀ n < 16, hexVal (hexDigit n) = some n := by decide

theorem skipWs_cons_of_not_ws (c : Char) (cs : List Char) (h : jsonWs c = false) :
    skipWs (c :: cs) = c :: cs := by
  simp [skipWs, h]

theorem ofNatAux_eq_of_toNat (n : Nat) (h : n.isValidChar) (c : Char)
    (he : n = c.toNat) : Char.ofNatAux n h = c := by
  subst he; rfl

/-- An escaped character is at least one character long. -/
theorem escapeChar_length_pos (c : Char) : 0 < (escapeChar c).length := by
  unfold escapeChar
  repeat' split
  all_goals simp

/-- The string-body parser inverts JSON escaping, leaving the suffix after
the closing quote intact, for any fuel exceeding the escaped length. -/
theorem parseStringBody_escapeList :
    ∀ (l : List Char) (fuel : Nat) (rest : List Char),
    (escapeList l).length < fuel →
    parseStringBody fuel (escapeList l ++ '"' :: rest) = some (l, rest) := by
  intro l
  induction l with
  | nil =>
    intro fuel rest hlen
    match fuel with
    | f + 1 => rfl
  | cons c cs ih =>
    intro fuel rest hlen
    have hec := escapeChar_length_pos c
    have hlen' : (escapeChar c ++ escapeList cs).length = 
        (escapeChar c).length + (escapeList cs).length := List.length_append _ _
    match fuel with
    | f + 1 =>
    have hrec : (escapeList cs).length < f := by
      have : (escapeList (c :: cs)).length < f + 1 := hlen
      rw [show escapeList (c :: cs) = escapeChar c ++ escapeList cs from rfl, hlen'] at this
      omega
    rw [show escapeList (c :: cs) = escapeChar c ++ escapeList cs from rfl,
      List.append_assoc]
    have step : ∀ C : Char,
        (parseStringBody f (escapeList cs ++ '"' :: rest)).map
          (fun r => (C :: r.1, r.2)) = some (C :: cs, rest) := by
      intro C; rw [ih f rest hrec]; rfl
    by_cases h1 : c = '"'
    · subst h1
      show (parseStringBody f (escapeList cs ++ '"' :: rest)).map
        (fun r => ('"' :: r.1, r.2)) = _
      exact step '"'
    by_cases h2 : c = '\\'
    · subst h2
      show (parseStringBody f (escapeList cs ++ '"' :: rest)).map
        (fun r => ('\\' :: r.1, r.2)) = _
      exact step '\\'
    by_cases h3 : c = '\n'
    · subst h3
      show (parseStringBody f (escapeList cs ++ '"' :: rest)).map
        (fun r => ('\n' :: r.1, r.2)) = _
      exact step '\n'
    by_cases h4 : c = '\t'
    · subst h4
      show (parseStringBody f (escapeList cs ++ '"' :: rest)).map
        (fun r => ('\t' :: r.1, r.2)) = _
      exact step '\t'
    by_cases h5 : c = '\r'
    · subst h5
      show (parseStringBody f (escapeList cs ++ '"' :: rest)).map
        (fun r => ('\r' :: r.1, r.2)) = _
      exact step '\r'
    by_cases h6 : c = '\x08'
    · subst h6
      show (parseStringBody f (escapeList cs ++ '"' :: rest)).map
        (fun r => ('\x08' :: r.1, r.2)) = _
      exact step '\x08'
    by_cases h7 : c = '\x0c'
    · subst h7
      show (parseStringBody f (escapeList cs ++ '"' :: rest)).map
        (fun r => ('\x0c' :: r.1, r.2)) = _
      exact step '\x0c'
    by_cases h8 : c.toNat < 32
    · have hn : ((0 * 16 + 0) * 16 + c.toNat / 16) * 16 + c.toNat % 16 = c.toNat := by
        omega
      have hvalid : (((0 * 16 + 0) * 16 + c.toNat / 16) * 16 + c.toNat % 16).isValidChar := by
        rw [hn]; exact Or.inl (by omega)
      have hesc : escapeChar c =
          ['\\', 'u', '0', '0', hexDigit (c.toNat / 16), hexDigit (c.toNat % 16)] := by
        simp [escapeChar, h1, h2, h3, h4, h5, h6, h7, h8]
      rw [hesc]
      show (match hexVal '0', hexVal '0', hexVal (hexDigit (c.toNat / 16)),
              hexVal (hexDigit (c.toNat % 16)) with
            | some a, some b, some c2, some d =>
              let n := ((a * 16 + b) * 16 + c2) * 16 + d
              if h : n.isValidChar then
                (parseStringBody f (escapeList cs ++ '"' :: rest)).map
                  fun r => (Char.ofNatAux n h :: r.1, r.2)
              else none
            | _, _, _, _ => none) = some (c :: cs, rest)
      rw [show hexVal '0' = some 0 from rfl,
        hexVal_hexDigit _ (by omega : c.toNat / 16 < 16),
        hexVal_hexDigit _ (Nat.mod_lt _ (by omega))]
      show (if h : (((0 * 16 + 0) * 16 + c.toNat / 16) * 16 + c.toNat % 16).isValidChar then
              (parseStringBody f (escapeList cs ++ '"' :: rest)).map
                fun r => (Char.ofNatAux _ h :: r.1, r.2)
            else none) = some (c :: cs, rest)
      rw [dif_pos hvalid, ofNatAux_eq_of_toNat _ hvalid c hn, ih f rest hrec]
      rfl
    · have hesc : escapeChar c = [c] := by
        simp [escapeChar, h1, h2, h3, h4, h5, h6, h7, h8]
      rw [hesc]
      show (if c = '"' then some ([], escapeList cs ++ '"' :: rest)
            else if c = '\\' then
              (match escapeList cs ++ '"' :: rest with
               | [] => none
               | e :: cs' =>
                 if e = '"' then (parseStringBody f cs').map fun r => ('"' :: r.1, r.2)
                 else if e = '\\' then
                   (parseStringBody f cs').map fun r => ('\\' :: r.1, r.2)
                 else if e = '/' then (parseStringBody f cs').map fun r => ('/' :: r.1, r.2)
                 else if e = 'b' then
                   (parseStringBody f cs').map fun r => ('\x08' :: r.1, r.2)
                 else if e = 'f' then
                   (parseStringBody f cs').map fun r => ('\x0c' :: r.1, r.2)
                 else if e = 'n' then
                   (parseStringBody f cs').map fun r => ('\n' :: r.1, r.2)
                 else if e = 'r' then
                   (parseStringBody f cs').map fun r => ('\r' :: r.1, r.2)
                 else if e = 't' then
                   (parseStringBody f cs').map fun r => ('\t' :: r.1, r.2)
                 else if e = 'u' then
                   match cs' with
                   | h1 :: h2 :: h3 :: h4 :: cs'' =>
                     match hexVal h1, hexVal h2, hexVal h3, hexVal h4 with
                     | some a, some b, some c2, some d =>
                       let n := ((a * 16 + b) * 16 + c2) * 16 + d
                       if h : n.isValidChar then
                         (parseStringBody f cs'').map
                           fun r => (Char.ofNatAux n h :: r.1, r.2)
                       else none
                     | _, _, _, _ => none
                   | _ => none
                 else none)
            else if c.toNat < 32 then none
            else (parseStringBody f (escapeList cs ++ '"' :: rest)).map
              fun r => (c :: r.1, r.2)) = some (c :: cs, rest)
      rw [if_neg h1, if_neg h2, if_neg h8, ih f rest hrec]
      rfl

/-- Every well-formed value renders to a nonempty string whose head is
neither whitespace nor a closing bracket. -/
theorem renderJson_head (v : Json) (h : wfJson v = true) :
    ∃ c cs, renderJson v = c :: cs ∧ jsonWs c = false ∧ ¬ c = ']' ∧ ¬ c = '}' := by
  cases v with
  | null => exact ⟨'n', ['u', 'l', 'l'], by simp [renderJson], by decide, by decide, by decide⟩
  | bool b =>
    cases b with
    | false =>
      exact ⟨'f', ['a', 'l', 's', 'e'], by simp [renderJson], by decide, by decide, by decide⟩
    | true =>
      exact ⟨'t', ['r', 'u', 'e'], by simp [renderJson], by decide, by decide, by decide⟩
  | num m e => simp [wfJson] at h
  | str s =>
    exact ⟨'"', escapeList s.data ++ ['"'],
      by simp [renderJson, renderStringChars], by decide, by decide, by decide⟩
  | arr l =>
    cases l with
    | nil => exact ⟨'[', [']'], by simp [renderJson], by decide, by decide, by decide⟩
    | cons v vs =>
      exact ⟨'[', renderElemsChars v vs ++ [']'],
        by simp [renderJson], by decide, by decide, by decide⟩
  | obj kvs =>
    cases kvs with
    | nil => exact ⟨'{', ['}'], by simp [renderJson], by decide, by decide, by decide⟩
    | cons kv kvs =>
      exact ⟨'{', renderMembersChars kv kvs ++ ['}'],
        by simp [renderJson], by decide, by decide, by decide⟩
  | nan => simp [wfJson] at h
  | inf => simp [wfJson] at h
  | negInf => simp [wfJson] at h

/-- The rendering of a member list opens with the first key's quote. -/
theorem renderMembersChars_head (kv : String × Json) (kvs : List (String × Json)) :
    ∃ X, renderMembersChars kv kvs = '"' :: X := by
  obtain ⟨k, v⟩ := kv
  cases kvs with
  | nil =>
    exact ⟨(escapeList k.data ++ ['"']) ++ ':' :: renderJson v,
      by simp [renderMembersChars, renderStringChars]⟩
  | cons kv2 kvs2 =>
    exact ⟨(escapeList k.data ++ ['"']) ++
        ':' :: (renderJson v ++ ',' :: renderMembersChars kv2 kvs2),
      by simp [renderMembersChars, renderStringChars]⟩


/-- The parser inverts the renderer on well-formed values, elementwise over
the three mutual parsing functions, for any fuel exceeding the rendered
length. -/
theorem parse_render_aux : ∀ fuel : Nat,
    (∀ (v : Json) (rest : List Char), wfJson v = true →
      (renderJson v).length < fuel →
      parseValue fuel (renderJson v ++ rest) = some (v, rest)) ∧
    (∀ (v : Json) (vs : List Json) (acc : List Json) (rest : List Char),
      wfJsonList (v :: vs) = true →
      (renderElemsChars v vs).length + 1 < fuel →
      parseElems fuel (renderElemsChars v vs ++ ']' :: rest) acc =
        some (Json.arr (acc ++ v :: vs), rest)) ∧
    (∀ (k : String) (v : Json) (kvs : List (String × Json))
      (acc : List (String × Json)) (rest : List Char),
      wfJsonKVs ((k, v) :: kvs) = true →
      ((acc ++ (k, v) :: kvs).map Prod.fst).Nodup →
      (renderMembersChars (k, v) kvs).length + 1 < fuel →
      parseMembers fuel (renderMembersChars (k, v) kvs ++ '}' :: rest) acc =
        some (Json.obj (acc ++ (k, v) :: kvs), rest)) := by
  intro fuel
  induction fuel with
  | zero =>
    refine ⟨fun v rest _ hlen => ?_, fun v vs acc rest _ hlen => ?_,
      fun k v kvs acc rest _ _ hlen => ?_⟩ <;> omega
  | succ f ih =>
    obtain ⟨ihV, ihE, ihM⟩ := ih
    refine ⟨?_, ?_, ?_⟩
    · -- parseValue
      intro v rest hwf hlen
      cases v with
      | null =>
        rw [show renderJson .null = ['n', 'u', 'l', 'l'] from by simp [renderJson]]
        rfl
      | bool b =>
        cases b with
        | false =>
          rw [show renderJson (.bool false) = ['f', 'a', 'l', 's', 'e'] from by
            simp [renderJson]]
          rfl
        | true =>
          rw [show renderJson (.bool true) = ['t', 'r', 'u', 'e'] from by
            simp [renderJson]]
          rfl
      | num m e => simp [wfJson] at hwf
      | nan => simp [wfJson] at hwf
      | inf => simp [wfJson] at hwf
      | negInf => simp [wfJson] at hwf
      | str s =>
        have hr : renderJson (.str s) = '"' :: (escapeList s.data ++ ['"']) := by
          simp [renderJson, renderStringChars]
        have hlen2 : (escapeList s.data).length < f := by
          rw [hr] at hlen
          simp only [List.length_cons, List.length_append, List.length_singleton] at hlen
          omega
        rw [hr]
        simp only [List.cons_append, List.append_assoc, List.singleton_append, List.nil_append]
        show (parseStringBody f (escapeList s.data ++ '"' :: rest)).map
          (fun r => ((Json.str (String.mk r.1) : Json), r.2)) = some (Json.str s, rest)
        rw [parseStringBody_escapeList s.data f rest hlen2]
        rfl
      | arr l =>
        cases l with
        | nil =>
          rw [show renderJson (.arr []) = ['[', ']'] from by simp [renderJson]]
          rfl
        | cons v vs =>
          have hwf2 : wfJson v = true ∧ wfJsonList vs = true := by
            simpa [wfJson, wfJsonList] using hwf
          have hr : renderJson (.arr (v :: vs)) =
              '[' :: (renderElemsChars v vs ++ [']']) := by simp [renderJson]
          have hT : ∃ T, renderElemsChars v vs = renderJson v ++ T := by
            cases vs with
            | nil => exact ⟨[], by simp [renderElemsChars]⟩
            | cons w ws => exact ⟨',' :: renderElemsChars w ws, by simp [renderElemsChars]⟩
          obtain ⟨T, hTeq⟩ := hT
          obtain ⟨c0, cs0, h0, hws0, hne0, hne1⟩ := renderJson_head v hwf2.1
          have hlen2 : (renderElemsChars v vs).length + 1 < f := by
            rw [hr] at hlen
            simp only [List.length_cons, List.length_append, List.length_singleton] at hlen
            omega
          rw [hr]
          simp only [List.cons_append, List.append_assoc, List.singleton_append, List.nil_append]
          have hshape : renderElemsChars v vs ++ ']' :: rest =
              c0 :: (cs0 ++ T ++ ']' :: rest) := by
            rw [hTeq, h0]
            simp
          rw [show renderElemsChars v vs ++ ']' :: rest =
            c0 :: (cs0 ++ T ++ ']' :: rest) from hshape]
          show (match skipWs (c0 :: (cs0 ++ T ++ ']' :: rest)) with
                | ']' :: r2 => some (Json.arr [], r2)
                | cs2 => parseElems f cs2 []) = some (Json.arr (v :: vs), rest)
          rw [skipWs_cons_of_not_ws _ _ hws0]
          have harm : (match c0 :: (cs0 ++ T ++ ']' :: rest) with
                | ']' :: r2 => some ((.arr [] : Json), r2)
                | cs2 => parseElems f cs2 []) =
              parseElems f (c0 :: (cs0 ++ T ++ ']' :: rest)) [] := by
            split
            · rename_i heq
              rw [List.cons.injEq] at heq
              exact absurd heq.1 hne0
            · rfl
          rw [harm, ← hshape, ihE v vs [] rest (by simp [wfJsonList, hwf2.1, hwf2.2]) hlen2]
          simp
      | obj kvs =>
        cases kvs with
        | nil =>
          rw [show renderJson (.obj []) = ['{', '}'] from by simp [renderJson]]
          rfl
        | cons kv kvs2 =>
          obtain ⟨k, v⟩ := kv
          have hwf2 : ((((k, v) :: kvs2).map Prod.fst).Nodup) ∧
              wfJsonKVs ((k, v) :: kvs2) = true := by
            rw [show wfJson (.obj ((k, v) :: kvs2)) =
              (decide (((k, v) :: kvs2).map Prod.fst).Nodup &&
                wfJsonKVs ((k, v) :: kvs2)) from by simp [wfJson]] at hwf
            simpa using hwf
          have hr : renderJson (.obj ((k, v) :: kvs2)) =
              '{' :: (renderMembersChars (k, v) kvs2 ++ ['}']) := by simp [renderJson]
          obtain ⟨X, hX⟩ := renderMembersChars_head (k, v) kvs2
          have hlen2 : (renderMembersChars (k, v) kvs2).length + 1 < f := by
            rw [hr] at hlen
            simp only [List.length_cons, List.length_append, List.length_singleton] at hlen
            omega
          rw [hr]
          simp only [List.cons_append, List.append_assoc, List.singleton_append, List.nil_append]
          have hshape : renderMembersChars (k, v) kvs2 ++ '}' :: rest =
              '"' :: (X ++ '}' :: rest) := by
            rw [hX]; simp
          rw [show renderMembersChars (k, v) kvs2 ++ '}' :: rest =
            '"' :: (X ++ '}' :: rest) from hshape]
          show parseMembers f ('"' :: (X ++ '}' :: rest)) [] =
            some (Json.obj ((k, v) :: kvs2), rest)
          rw [← hshape, ihM k v kvs2 [] rest hwf2.2 (by simpa using hwf2.1) hlen2]
          simp
    · -- parseElems
      intro v vs acc rest hwf hlen
      have hwf2 : wfJson v = true ∧ wfJsonList vs = true := by
        simpa [wfJsonList] using hwf
      cases vs with
      | nil =>
        have hre : renderElemsChars v [] = renderJson v := by simp [renderElemsChars]
        have hfv : (renderJson v).length < f := by
          rw [hre] at hlen; omega
        rw [hre]
        show (match parseValue f (renderJson v ++ ']' :: rest) with
              | some (w, r1) =>
                (match skipWs r1 with
                 | ',' :: r2 => parseElems f r2 (acc ++ [w])
                 | ']' :: r2 => some (Json.arr (acc ++ [w]), r2)
                 | _ => none)
              | none => none) = some (Json.arr (acc ++ [v]), rest)
        rw [ihV v (']' :: rest) hwf2.1 hfv]
        rfl
      | cons w ws =>
        have hre : renderElemsChars v (w :: ws) =
            renderJson v ++ ',' :: renderElemsChars w ws := by simp [renderElemsChars]
        obtain ⟨c0, cs0, h0, hx1, hx2, hx3⟩ := renderJson_head v hwf2.1
        have hlens : (renderElemsChars v (w :: ws)).length =
            (renderJson v).length + 1 + (renderElemsChars w ws).length := by
          rw [hre]; simp; omega
        have hfv : (renderJson v).length < f := by omega
        have hfw : (renderElemsChars w ws).length + 1 < f := by
          have h1 : 1 ≤ (renderJson v).length := by rw [h0]; simp
          omega
        rw [hre]
        simp only [List.cons_append, List.append_assoc]
        show (match parseValue f (renderJson v ++
                ',' :: (renderElemsChars w ws ++ ']' :: rest)) with
              | some (w1, r1) =>
                (match skipWs r1 with
                 | ',' :: r2 => parseElems f r2 (acc ++ [w1])
                 | ']' :: r2 => some (Json.arr (acc ++ [w1]), r2)
                 | _ => none)
              | none => none) = some (Json.arr (acc ++ v :: w :: ws), rest)
        rw [ihV v _ hwf2.1 hfv]
        show (match skipWs (',' :: (renderElemsChars w ws ++ ']' :: rest)) with
              | ',' :: r2 => parseElems f r2 (acc ++ [v])
              | ']' :: r2 => some (Json.arr (acc ++ [v]), r2)
              | _ => none) = some (Json.arr (acc ++ v :: w :: ws), rest)
        rw [show skipWs (',' :: (renderElemsChars w ws ++ ']' :: rest)) =
          ',' :: (renderElemsChars w ws ++ ']' :: rest) from
          skipWs_cons_of_not_ws _ _ (by decide)]
        show parseElems f (renderElemsChars w ws ++ ']' :: rest) (acc ++ [v]) =
          some (Json.arr (acc ++ v :: w :: ws), rest)
        rw [ihE w ws (acc ++ [v]) rest hwf2.2 hfw]
        simp
    · -- parseMembers
      intro k v kvs acc rest hwf hnd hlen
      have hkv : wfJson v = true ∧ wfJsonKVs kvs = true := by
        simpa [wfJsonKVs] using hwf
      have hfreshk : k ∉ acc.map Prod.fst := by
        intro hmem
        have hnd2 := hnd
        rw [List.map_append] at hnd2
        rcases List.nodup_append.mp hnd2 with ⟨ha, hb, hdisj⟩
        exact hdisj hmem (by simp)
      have hkey : (renderStringChars k).length = (escapeList k.data).length + 2 := by
        simp [renderStringChars]
      cases kvs with
      | nil =>
        have hrm : renderMembersChars (k, v) [] =
            renderStringChars k ++ ':' :: renderJson v := by simp [renderMembersChars]
        have hlens : (renderMembersChars (k, v) []).length =
            (renderStringChars k).length + 1 + (renderJson v).length := by
          rw [hrm]; simp; omega
        have hfk : (escapeList k.data).length < f := by omega
        have hfv : (renderJson v).length < f := by omega
        rw [hrm, show renderStringChars k = '"' :: (escapeList k.data ++ ['"']) from by
          simp [renderStringChars]]
        simp only [List.cons_append, List.append_assoc, List.singleton_append, List.nil_append]
        show (match parseStringBody f (escapeList k.data ++
                '"' :: (':' :: (renderJson v ++ '}' :: rest))) with
              | some (kd, c1) =>
                (match skipWs c1 with
                 | ':' :: c2 =>
                   (match parseValue f c2 with
                    | some (w, r1) =>
                      (match skipWs r1 with
                       | ',' :: r2 => parseMembers f r2 (insertKV acc (String.mk kd) w)
                       | '}' :: r2 => some (Json.obj (insertKV acc (String.mk kd) w), r2)
                       | _ => none)
                    | none => none)
                 | _ => none)
              | none => none) = some (Json.obj (acc ++ [(k, v)]), rest)
        rw [parseStringBody_escapeList k.data f _ hfk]
        show (match skipWs (':' :: (renderJson v ++ '}' :: rest)) with
              | ':' :: c2 =>
                (match parseValue f c2 with
                 | some (w, r1) =>
                   (match skipWs r1 with
                    | ',' :: r2 => parseMembers f r2 (insertKV acc (String.mk k.data) w)
                    | '}' :: r2 => some (Json.obj (insertKV acc (String.mk k.data) w), r2)
                    | _ => none)
                 | none => none)
              | _ => none) = some (Json.obj (acc ++ [(k, v)]), rest)
        rw [show skipWs (':' :: (renderJson v ++ '}' :: rest)) =
          ':' :: (renderJson v ++ '}' :: rest) from skipWs_cons_of_not_ws _ _ (by decide)]
        show (match parseValue f (renderJson v ++ '}' :: rest) with
              | some (w, r1) =>
                (match skipWs r1 with
                 | ',' :: r2 => parseMembers f r2 (insertKV acc (String.mk k.data) w)
                 | '}' :: r2 => some (Json.obj (insertKV acc (String.mk k.data) w), r2)
                 | _ => none)
              | none => none) = some (Json.obj (acc ++ [(k, v)]), rest)
        rw [ihV v _ hkv.1 hfv]
        show (match skipWs ('}' :: rest) with
              | ',' :: r2 => parseMembers f r2 (insertKV acc (String.mk k.data) v)
              | '}' :: r2 => some (Json.obj (insertKV acc (String.mk k.data) v), r2)
              | _ => none) = some (Json.obj (acc ++ [(k, v)]), rest)
        rw [show skipWs ('}' :: rest) = '}' :: rest from
          skipWs_cons_of_not_ws _ _ (by decide)]
        show some (Json.obj (insertKV acc (String.mk k.data) v), rest) =
          some (Json.obj (acc ++ [(k, v)]), rest)
        rw [show String.mk k.data = k from rfl, insertKV_fresh acc k v hfreshk]
      | cons kv2 kvs2 =>
        obtain ⟨k2, v2⟩ := kv2
        have hrm : renderMembersChars (k, v) ((k2, v2) :: kvs2) =
            renderStringChars k ++ ':' :: (renderJson v ++
              ',' :: renderMembersChars (k2, v2) kvs2) := by simp [renderMembersChars]
        have hlens : (renderMembersChars (k, v) ((k2, v2) :: kvs2)).length =
            (renderStringChars k).length + 1 + (renderJson v).length + 1 +
              (renderMembersChars (k2, v2) kvs2).length := by
          rw [hrm]; simp; omega
        have hfk : (escapeList k.data).length < f := by omega
        have hfv : (renderJson v).length < f := by omega
        have hfm : (renderMembersChars (k2, v2) kvs2).length + 1 < f := by omega
        rw [hrm, show renderStringChars k = '"' :: (escapeList k.data ++ ['"']) from by
          simp [renderStringChars]]
        simp only [List.cons_append, List.append_assoc, List.singleton_append, List.nil_append]
        show (match parseStringBody f (escapeList k.data ++ '"' ::
                (':' :: (renderJson v ++ ',' ::
                  (renderMembersChars (k2, v2) kvs2 ++ '}' :: rest)))) with
              | some (kd, c1) =>
                (match skipWs c1 with
                 | ':' :: c2 =>
                   (match parseValue f c2 with
                    | some (w, r1) =>
                      (match skipWs r1 with
                       | ',' :: r2 => parseMembers f r2 (insertKV acc (String.mk kd) w)
                       | '}' :: r2 => some (Json.obj (insertKV acc (String.mk kd) w), r2)
                       | _ => none)
                    | none => none)
                 | _ => none)
              | none => none) = some (Json.obj (acc ++ (k, v) :: (k2, v2) :: kvs2), rest)
        rw [parseStringBody_escapeList k.data f _ hfk]
        show (match skipWs (':' :: (renderJson v ++ ',' ::
                (renderMembersChars (k2, v2) kvs2 ++ '}' :: rest))) with
              | ':' :: c2 =>
                (match parseValue f c2 with
                 | some (w, r1) =>
                   (match skipWs r1 with
                    | ',' :: r2 => parseMembers f r2 (insertKV acc (String.mk k.data) w)
                    | '}' :: r2 => some (Json.obj (insertKV acc (String.mk k.data) w), r2)
                    | _ => none)
                 | none => none)
              | _ => none) = some (Json.obj (acc ++ (k, v) :: (k2, v2) :: kvs2), rest)
        rw [show skipWs (':' :: (renderJson v ++ ',' ::
            (renderMembersChars (k2, v2) kvs2 ++ '}' :: rest))) =
          ':' :: (renderJson v ++ ',' ::
            (renderMembersChars (k2, v2) kvs2 ++ '}' :: rest)) from
          skipWs_cons_of_not_ws _ _ (by decide)]
        show (match parseValue f (renderJson v ++ ',' ::
                (renderMembersChars (k2, v2) kvs2 ++ '}' :: rest)) with
              | some (w, r1) =>
                (match skipWs r1 with
                 | ',' :: r2 => parseMembers f r2 (insertKV acc (String.mk k.data) w)
                 | '}' :: r2 => some (Json.obj (insertKV acc (String.mk k.data) w), r2)
                 | _ => none)
              | none => none) = some (Json.obj (acc ++ (k, v) :: (k2, v2) :: kvs2), rest)
        rw [ihV v _ hkv.1 hfv]
        show (match skipWs (',' :: (renderMembersChars (k2, v2) kvs2 ++ '}' :: rest)) with
              | ',' :: r2 => parseMembers f r2 (insertKV acc (String.mk k.data) v)
              | '}' :: r2 => some (Json.obj (insertKV acc (String.mk k.data) v), r2)
              | _ => none) = some (Json.obj (acc ++ (k, v) :: (k2, v2) :: kvs2), rest)
        rw [show skipWs (',' :: (renderMembersChars (k2, v2) kvs2 ++ '}' :: rest)) =
          ',' :: (renderMembersChars (k2, v2) kvs2 ++ '}' :: rest) from
          skipWs_cons_of_not_ws _ _ (by decide)]
        show parseMembers f (renderMembersChars (k2, v2) kvs2 ++ '}' :: rest)
            (insertKV acc (String.mk k.data) v) =
          some (Json.obj (acc ++ (k, v) :: (k2, v2) :: kvs2), rest)
        rw [show String.mk k.data = k from rfl, insertKV_fresh acc k v hfreshk]
        rw [ihM k2 v2 kvs2 (acc ++ [(k, v)]) rest hkv.2 (by simpa using hnd) hfm]
        simp


/-- `json.loads` inverts rendering on well-formed values. -/
theorem jsonLoads_render (v : Json) (h : wfJson v = true) :
    jsonLoads (String.mk (renderJson v)) = .ok v := by
  unfold jsonLoads
  show (match parseValue ((renderJson v).length + 1) (renderJson v) with
        | some (w, rest) =>
          if skipWs rest = [] then Except.ok w else Except.error "Extra data"
        | none => (Except.error "Expecting value" : Except String Json)) = Except.ok v
  have hv := (parse_render_aux ((renderJson v ++ []).length + 1)).1 v [] h (by simp)
  simp only [List.append_nil] at hv
  rw [hv]
  try rfl

/-- Fence-stripping and trimming leave a rendered JSON object untouched:
it opens with `{` and closes with `}`, neither of which is stripped. -/
theorem cleanChars_braced (mid : List Char) :
    cleanChars ('{' :: mid ++ ['}']) = '{' :: mid ++ ['}'] := by
  have hstrip : pyStripChars ('{' :: mid ++ ['}']) = '{' :: mid ++ ['}'] := by
    unfold pyStripChars
    rw [show ('{' :: mid ++ ['}'] : List Char) = ('{' :: mid) ++ ['}'] from by simp]
    rw [show List.dropWhile pyIsSpace (('{' :: mid) ++ ['}']) = ('{' :: mid) ++ ['}'] from by
      rw [List.cons_append, List.dropWhile_cons]
      simp [pyIsSpace]]
    rw [List.reverse_append]
    rw [show (['}'] : List Char).reverse = ['}'] from rfl]
    rw [show List.dropWhile pyIsSpace (['}'] ++ ('{' :: mid).reverse) =
      ['}'] ++ ('{' :: mid).reverse from by
      rw [List.singleton_append, List.dropWhile_cons]
      simp [pyIsSpace]]
    rw [show (['}'] ++ ('{' :: mid).reverse : List Char) =
      (('{' :: mid) ++ ['}']).reverse from by rw [List.reverse_append]; rfl]
    rw [List.reverse_reverse]
    try simp
  have hrev : ('{' :: mid ++ ['}']).reverse = '}' :: ('{' :: mid).reverse := by
    rw [show ('{' :: mid ++ ['}'] : List Char) = ('{' :: mid) ++ ['}'] from by simp,
      List.reverse_append]
    rfl
  simp only [cleanChars]
  simp only [hstrip]
  simp only [show isPrefixOfChars ("```json".data) ('{' :: mid ++ ['}']) = false from rfl,
    show isPrefixOfChars ("```".data) ('{' :: mid ++ ['}']) = false from rfl,
    show isPrefixOfChars ("```".data.reverse) ('{' :: mid ++ ['}']).reverse = false from by
      rw [hrev]; rfl,
    Bool.false_eq_true, if_false]
  try exact hstrip

theorem wfJsonList_map_str (l : List String) : wfJsonList (l.map .str) = true := by
  induction l with
  | nil => simp [wfJsonList]
  | cons s l ih => simp [wfJsonList, wfJson, ih]

theorem wfJson_itemToJson (it : Item) : wfJson (itemToJson it) = true := by
  simp [itemToJson, wfJson, wfJsonKVs, wfJsonList_map_str]

theorem wfJsonList_map_item (l : List Item) : wfJsonList (l.map itemToJson) = true := by
  induction l with
  | nil => simp [wfJsonList]
  | cons it l ih => simp [wfJsonList, wfJson_itemToJson, ih]

theorem wfJson_categoryToJson (c : Category) : wfJson (categoryToJson c) = true := by
  simp [categoryToJson, wfJson, wfJsonKVs, wfJsonList_map_item]

theorem wfJsonList_map_category (l : List Category) :
    wfJsonList (l.map categoryToJson) = true := by
  induction l with
  | nil => simp [wfJsonList]
  | cons c l ih => simp [wfJsonList, wfJson_categoryToJson, ih]

theorem wfJson_analysisToJson (r : AnalysisResult) : wfJson (analysisToJson r) = true := by
  simp [analysisToJson, wfJson, wfJsonKVs, wfJsonList_map_str, wfJsonList_map_category]

/-- When every required key is present, the repair pass is the identity. -/
theorem repairResult_all_present (kvs : List (String × Json))
    (targetDate defaultTheme : String)
    (h : ∀ k ∈ sixKeys, ∃ w, lookupJ kvs k = some w) :
    repairResult kvs targetDate defaultTheme = kvs := by
  obtain ⟨w1, h1⟩ := h "status" (by simp [sixKeys])
  obtain ⟨w2, h2⟩ := h "date" (by simp [sixKeys])
  obtain ⟨w3, h3⟩ := h "theme" (by simp [sixKeys])
  obtain ⟨w4, h4⟩ := h "summary" (by simp [sixKeys])
  obtain ⟨w5, h5⟩ := h "keywords" (by simp [sixKeys])
  obtain ⟨w6, h6⟩ := h "categories" (by simp [sixKeys])
  unfold repairResult
  rw [ensureKey_present _ _ _ _ h1, ensureKey_present _ _ _ _ h2,
    ensureKey_present _ _ _ _ h3, ensureKey_present _ _ _ _ h4,
    ensureKey_present _ _ _ _ h5, ensureKey_present _ _ _ _ h6]

/-- **C8.**  Encoding a fully-populated `AnalysisResult` to the wire schema
requested in the prompt and decoding that text via `_parse_result`
reproduces every user-supplied field value unchanged — no default
overwrites any supplied value, whatever the target date and configured
default theme of the decoding side. -/
theorem wire_roundtrip (r : AnalysisResult) (targetDate defaultTheme : String) :
    parse_result (wireEncode r) targetDate defaultTheme =
      .ok (.obj [("status", .str r.status), ("date", .str r.date),
                 ("theme", .str r.theme),
                 ("summary", .arr (r.summary.map .str)),
                 ("keywords", .arr (r.keywords.map .str)),
                 ("categories", .arr (r.categories.map categoryToJson))]) := by
  have hshape : renderJson (analysisToJson r) =
      '{' :: (renderMembersChars ("status", .str r.status)
        [("date", .str r.date), ("theme", .str r.theme),
         ("summary", .arr (r.summary.map .str)),
         ("keywords", .arr (r.keywords.map .str)),
         ("categories", .arr (r.categories.map categoryToJson))] ++ ['}']) := by
    simp [analysisToJson, renderJson]
  have hclean : cleanResultText (wireEncode r) = wireEncode r := by
    unfold cleanResultText wireEncode
    rw [show (String.mk (renderJson (analysisToJson r))).data =
      renderJson (analysisToJson r) from rfl]
    rw [hshape, show ('{' :: (renderMembersChars ("status", .str r.status)
        [("date", .str r.date), ("theme", .str r.theme),
         ("summary", .arr (r.summary.map .str)),
         ("keywords", .arr (r.keywords.map .str)),
         ("categories", .arr (r.categories.map categoryToJson))] ++ ['}'])) =
      ('{' :: renderMembersChars ("status", .str r.status)
        [("date", .str r.date), ("theme", .str r.theme),
         ("summary", .arr (r.summary.map .str)),
         ("keywords", .arr (r.keywords.map .str)),
         ("categories", .arr (r.categories.map categoryToJson))] ++ ['}']) from by simp]
    rw [cleanChars_braced]
  have hload : jsonLoads (wireEncode r) = .ok (analysisToJson r) :=
    jsonLoads_render _ (wfJson_analysisToJson r)
  have hpresent : ∀ k ∈ sixKeys, ∃ w,
      lookupJ [("status", Json.str r.status), ("date", Json.str r.date),
               ("theme", Json.str r.theme),
               ("summary", Json.arr (r.summary.map .str)),
               ("keywords", Json.arr (r.keywords.map .str)),
               ("categories", Json.arr (r.categories.map categoryToJson))] k = some w := by
    intro k hk
    simp only [sixKeys, List.mem_cons, List.not_mem_nil, or_false] at hk
    rcases hk with rfl | rfl | rfl | rfl | rfl | rfl <;> simp [lookupJ]
  simp only [parse_result, cleanResultText] at hclean ⊢
  rw [hclean] at *
  rw [show jsonLoads (wireEncode r) = jsonLoads (wireEncode r) from rfl]
  rw [hload]
  show Except.ok (Json.obj (repairResult
    [("status", Json.str r.status), ("date", Json.str r.date),
     ("theme", Json.str r.theme),
     ("summary", Json.arr (r.summary.map .str)),
     ("keywords", Json.arr (r.keywords.map .str)),
     ("categories", Json.arr (r.categories.map categoryToJson))]
    targetDate defaultTheme)) = _
  rw [repairResult_all_present _ _ _ hpresent]

end AIDaily
